import Mathlib

/-!
Verification of the entropy / information-gain module (`ai/entropy.py`).

The Python module is shallowly embedded below.  Python floats are modelled as
real numbers; Python runtime errors (`ZeroDivisionError`, `KeyError`,
`IndexError`, and the generic `Exception` raised by `index_of_attribute`) are
modelled by the `PyErr` error type, and every fallible operation returns
`Except PyErr _`.  Python dicts built with `dict.fromkeys` are modelled as
association lists in insertion order; attribute value tuples and the class
tuple of a `SampleSet` are distinct by the data model, so no key
deduplication arises in any statement below.
-/

namespace AiEntropy

/-- The Python runtime errors that the module can raise:
division by zero, a missing dict key, an out-of-range sequence index, and
the generic `Exception(msg)` raised by `index_of_attribute`. -/
inductive PyErr where
  | zeroDiv
  | keyError (k : String)
  | indexError
  | exception (msg : String)
deriving DecidableEq

/-- `class Attribute`: a named feature with its tuple of legal values. -/
structure Attribute where
  name : String
  values : List String
deriving DecidableEq

/-- `class Sample`: a class-label result and the tuple of attribute values. -/
structure Sample where
  result : String
  values : List String
deriving DecidableEq

/-- `class SampleSet` (pure view): attributes, classes and the sample list.
This models a `SampleSet` whose sample storage was supplied explicitly; the
shared-default-argument behaviour of `__init__` is modelled separately by
the heap embedding (`PyHeap`, `SampleSetRef`) below. -/
structure SampleSet where
  attributes : List Attribute
  classes : List String
  samples : List Sample
deriving DecidableEq

/-- `self.samples.append(sample)` on a set with explicitly owned storage. -/
def SampleSet.add_sample (ss : SampleSet) (sample : Sample) : SampleSet :=
  { ss with samples := ss.samples ++ [sample] }

/-- Python sequence indexing `l[i]` (`IndexError` when out of range; the
module only ever indexes with non-negative indices). -/
def pyIndex (l : List String) (i : Nat) : Except PyErr String :=
  match l[i]? with
  | some v => Except.ok v
  | none => Except.error PyErr.indexError

/-- Python sequence indexing `self.attributes[i]`. -/
def pyIndexA (l : List Attribute) (i : Nat) : Except PyErr Attribute :=
  match l[i]? with
  | some a => Except.ok a
  | none => Except.error PyErr.indexError

/-- `dict.fromkeys(keys, 0)`: a counter dict with the keys in order. -/
def dictFromKeys (keys : List String) : List (String × Nat) :=
  keys.map (fun k => (k, 0))

/-- `s[k] += 1`: bump the entry for `k`, `KeyError` when `k` is absent. -/
def dictIncr : List (String × Nat) → String → Except PyErr (List (String × Nat))
  | [], k => Except.error (PyErr.keyError k)
  | (k', v) :: rest, k =>
    if k' = k then Except.ok ((k', v + 1) :: rest)
    else (dictIncr rest k).map (fun r => (k', v) :: r)

/-- The pure value of one iteration of the entropy loops
(`if frac != 0: entropy -= frac * log2(frac)`). -/
noncomputable def entStepP (c : Nat) (e : ℝ) (kv : String × Nat) : ℝ :=
  let frac := (kv.2 : ℝ) / (c : ℝ)
  if frac ≠ 0 then e - frac * Real.logb 2 frac else e

/-- One iteration of the entropy loops including the division `frac = v / c`,
which raises `ZeroDivisionError` when `c = 0`. -/
noncomputable def entStep (c : Nat) (e : ℝ) (kv : String × Nat) : Except PyErr ℝ :=
  if c = 0 then Except.error PyErr.zeroDiv else Except.ok (entStepP c e kv)

/-- `info_function(values)`: `total = sum(values)`; each fraction `v/total`
is computed (first raising `ZeroDivisionError` when `total = 0` and the list
is non-empty), then zero fractions are skipped in the sum.  The pure value
for the non-erroring case is `infoVal`. -/
noncomputable def infoVal (values : List ℕ) : ℝ :=
  values.foldl (fun (i : ℝ) (v : ℕ) =>
    let frac := (v : ℝ) / (values.sum : ℝ)
    if frac ≠ 0 then i - frac * Real.logb 2 frac else i) 0

/-- `info_function` with the Python error behaviour: an empty list returns
`0` (no division happens), an all-zero non-empty list divides `0/0`. -/
noncomputable def info_function (values : List ℕ) : Except PyErr ℝ :=
  if values.isEmpty then Except.ok 0
  else if values.sum = 0 then Except.error PyErr.zeroDiv
  else Except.ok (infoVal values)

/-- The message of the exception raised by `index_of_attribute`
(`"'%s' is not an attribute." % attribute`). -/
def errMsg (attrName : String) : String :=
  "\x27" ++ attrName ++ "\x27 is not an attribute."

/-- The enumeration loop of `index_of_attribute`. -/
def indexOfAux (l : List Attribute) (i : Nat) (attrName : String) : Except PyErr Nat :=
  match l with
  | [] => Except.error (PyErr.exception (errMsg attrName))
  | x :: rest => if x.name = attrName then Except.ok i else indexOfAux rest (i + 1) attrName

/-- `SampleSet.index_of_attribute`: scan the attribute tuple for the name,
raising `Exception` naming the offending attribute on failure. -/
def SampleSet.index_of_attribute (ss : SampleSet) (attrName : String) : Except PyErr Nat :=
  indexOfAux ss.attributes 0 attrName

/-- `attribute_entropy` accepts either a name (`isinstance(attr, str)`) or
an already-resolved index. -/
inductive AttrRef where
  | byName (s : String)
  | byIndex (i : Nat)

/-- `attr_index = attr; if isinstance(attr, str): attr_index = self.index_of_attribute(attr)` -/
def AttrRef.resolve (a : AttrRef) (ss : SampleSet) : Except PyErr Nat :=
  match a with
  | AttrRef.byName s => ss.index_of_attribute s
  | AttrRef.byIndex i => Except.ok i

/-- The class-count loop of `entropy`:
`s = dict.fromkeys(self.classes, 0); for x in self.samples: s[x.result] += 1`. -/
def SampleSet.classCounts (ss : SampleSet) : Except PyErr (List (String × Nat)) :=
  ss.samples.foldlM (fun s x => dictIncr s x.result) (dictFromKeys ss.classes)

/-- `SampleSet.entropy`: class counts over all samples, then
`entropy -= frac * log2(frac)` over the counter items with `c = len(self.samples)`. -/
noncomputable def SampleSet.entropy (ss : SampleSet) : Except PyErr ℝ := do
  let s ← ss.classCounts
  s.foldlM (entStep ss.samples.length) 0

/-- The counting loop of `attribute_entropy`: scan the samples, and for each
sample whose value at `attr_index` equals `value`, bump `c` and the class
counter for its result. -/
def SampleSet.attrClassCounts (ss : SampleSet) (attr_index : Nat) (value : String) :
    Except PyErr (Nat × List (String × Nat)) :=
  ss.samples.foldlM (fun acc x => do
      let v ← pyIndex x.values attr_index
      if v = value then do
        let s ← dictIncr acc.2 x.result
        pure (acc.1 + 1, s)
      else pure acc) (0, dictFromKeys ss.classes)

/-- `SampleSet.attribute_entropy(attr, value)`. -/
noncomputable def SampleSet.attribute_entropy (ss : SampleSet) (attr : AttrRef) (value : String) :
    Except PyErr ℝ := do
  let attr_index ← attr.resolve ss
  let cs ← ss.attrClassCounts attr_index value
  cs.2.foldlM (entStep cs.1) 0

/-- The value-count loop of `gain`:
`s = dict.fromkeys(self.attributes[i].values, 0); for x in self.samples: s[x.values[i]] += 1`. -/
def SampleSet.valueCounts (ss : SampleSet) (i : Nat) : Except PyErr (List (String × Nat)) := do
  let a ← pyIndexA ss.attributes i
  ss.samples.foldlM (fun s x => do
      let v ← pyIndex x.values i
      dictIncr s v) (dictFromKeys a.values)

/-- One iteration of the final loop of `gain`:
`frac = v / c` (raising `ZeroDivisionError` when `c = 0`), then
`gain -= frac * self.attribute_entropy(i, k)`.  `attribute_entropy` is
called whether or not `frac` is zero. -/
noncomputable def gainStep (ss : SampleSet) (i c : Nat) (g : ℝ) (kv : String × Nat) :
    Except PyErr ℝ :=
  if c = 0 then Except.error PyErr.zeroDiv
  else do
    let e ← ss.attribute_entropy (AttrRef.byIndex i) kv.1
    Except.ok (g - ((kv.2 : ℝ) / (c : ℝ)) * e)

/-- `SampleSet.gain(attribute)`. -/
noncomputable def SampleSet.gain (ss : SampleSet) (attrName : String) : Except PyErr ℝ := do
  let gain0 ← ss.entropy
  let i ← ss.index_of_attribute attrName
  let s ← ss.valueCounts i
  s.foldlM (gainStep ss i ss.samples.length) gain0

/-- The filter `samples = [x for x in self.samples if x.values[attr1_index] == value]`. -/
def SampleSet.matchingSamples (ss : SampleSet) (attr1_index : Nat) (value : String) :
    Except PyErr (List Sample) :=
  ss.samples.foldlM (fun acc x => do
      let v ← pyIndex x.values attr1_index
      if v = value then pure (acc ++ [x]) else pure acc) []

/-- The bucketing loop of `attribute_gain`:
`cats = dict.fromkeys(self.attributes[attr2_index].values, [])` makes every
key alias ONE shared list object, so `cats[s.values[attr2_index]].append(s)`
appends every sample to that single shared list (after a `KeyError` check on
the key).  The fold returns the shared list. -/
def catsAppendAll (attr2_index : Nat) (keys : List String) (samples : List Sample) :
    Except PyErr (List Sample) :=
  samples.foldlM (fun shared s => do
      let v ← pyIndex s.values attr2_index
      if keys.contains v then pure (shared ++ [s]) else Except.error (PyErr.keyError v)) []

/-- The result-tabulation loop of `attribute_gain`: for each key `k`, count
the class labels of the samples in the (shared) bucket whose value at
`attr2_index` equals `k` — the re-filter that makes the aliasing harmless
for the counts. -/
def SampleSet.catsResults (ss : SampleSet) (attr2_index : Nat) (shared : List Sample)
    (keys : List String) : Except PyErr (List (String × List (String × Nat))) :=
  keys.foldlM (fun res k => do
      let s ← shared.foldlM (fun m sample => do
          let v ← pyIndex sample.values attr2_index
          if v = k then dictIncr m sample.result else pure m) (dictFromKeys ss.classes)
      pure (res ++ [(k, s)])) []

/-- One iteration of the final loop of `attribute_gain`:
`gain -= (sum(l) / n) * info_function(l)` with the division raising
`ZeroDivisionError` when `n = 0` before `info_function` runs. -/
noncomputable def agStep (n : Nat) (g : ℝ) (kx : String × List (String × Nat)) :
    Except PyErr ℝ :=
  let l := kx.2.map Prod.snd
  if n = 0 then Except.error PyErr.zeroDiv
  else do
    let i ← info_function l
    Except.ok (g - ((l.sum : ℝ) / (n : ℝ)) * i)

/-- `SampleSet.attribute_gain(attr1, value, attr2)`. -/
noncomputable def SampleSet.attribute_gain (ss : SampleSet) (attr1 value attr2 : String) :
    Except PyErr ℝ := do
  let attr1_index ← ss.index_of_attribute attr1
  let attr2_index ← ss.index_of_attribute attr2
  let gain0 ← ss.attribute_entropy (AttrRef.byIndex attr1_index) value
  let samples ← ss.matchingSamples attr1_index value
  let a2 ← pyIndexA ss.attributes attr2_index
  let shared ← catsAppendAll attr2_index a2.values samples
  let results ← ss.catsResults attr2_index shared a2.values
  results.foldlM (agStep samples.length) gain0

/-- The value of a sample at position `i` (total version, used only in
specifications under an in-range hypothesis). -/
def keyAt (i : Nat) (x : Sample) : String :=
  x.values.getD i ""

/-- Schema conformance of one sample with an attribute list and class set:
the result is a declared class, the value tuple has one entry per attribute,
and each entry is a declared value of the corresponding attribute. -/
def Sample.conformsTo (x : Sample) (attributes : List Attribute) (classes : List String) : Bool :=
  classes.contains x.result &&
  (x.values.length == attributes.length) &&
  (x.values.zip attributes).all (fun p => p.2.values.contains p.1)

/-- Schema conformance of every sample in a `SampleSet` (the data-model
invariant of the spec). -/
def SampleSet.conformant (ss : SampleSet) : Bool :=
  ss.samples.all (fun x => x.conformsTo ss.attributes ss.classes)

end AiEntropy

/-! ### Basic facts about the embedded primitives -/

namespace AiEntropy

@[simp] lemma ok_bind {α β : Type} (a : α) (f : α → Except PyErr β) :
    (Except.ok a >>= f) = f a := rfl

@[simp] lemma error_bind {α β : Type} (e : PyErr) (f : α → Except PyErr β) :
    ((Except.error e : Except PyErr α) >>= f) = Except.error e := rfl

@[simp] lemma map_ok {α β : Type} (f : α → β) (a : α) :
    Except.map f (Except.ok a : Except PyErr α) = Except.ok (f a) := rfl

@[simp] lemma map_error {α β : Type} (f : α → β) (e : PyErr) :
    Except.map f (Except.error e : Except PyErr α) = Except.error e := rfl

lemma pyIndex_ok {l : List String} {i : Nat} (h : i < l.length) :
    pyIndex l i = Except.ok (l.getD i "") := by
  simp [pyIndex, List.getElem?_eq_getElem h, List.getD_eq_getElem?_getD]

lemma pyIndexA_ok {l : List Attribute} {i : Nat} (h : i < l.length) :
    pyIndexA l i = Except.ok (l.getD i ⟨"", []⟩) := by
  simp [pyIndexA, List.getElem?_eq_getElem h, List.getD_eq_getElem?_getD]

/-- Mapping the bump function over a dict without the key is the identity. -/
lemma map_bump_id {rest : List (String × Nat)} {k : String}
    (h : k ∉ rest.map Prod.fst) :
    rest.map (fun kv => if kv.1 = k then (kv.1, kv.2 + 1) else kv) = rest := by
  induction rest with
  | nil => rfl
  | cons a tail ih =>
    simp only [List.map_cons, List.mem_cons, not_or] at h
    have h1 : a.1 ≠ k := fun hEq => h.1 hEq.symm
    simp only [List.map_cons, if_neg h1, ih h.2]

/-- Bumping a present key succeeds and (for duplicate-free keys) bumps the
matching entry. -/
lemma dictIncr_ok {m : List (String × Nat)} {k : String}
    (hnd : (m.map Prod.fst).Nodup) (hk : k ∈ m.map Prod.fst) :
    dictIncr m k =
      Except.ok (m.map (fun kv => if kv.1 = k then (kv.1, kv.2 + 1) else kv)) := by
  induction m with
  | nil => simp at hk
  | cons a rest ih =>
    simp only [List.map_cons, List.nodup_cons, List.mem_cons] at hnd hk
    cases a with
    | mk a1 a2 =>
      by_cases hEq : a1 = k
      · have hnotin : k ∉ rest.map Prod.fst := hEq ▸ hnd.1
        simp [dictIncr, hEq, map_bump_id hnotin]
      · have hk2 : k ∈ rest.map Prod.fst := by
          rcases hk with hk | hk
          · exact absurd hk.symm hEq
          · exact hk
        simp [dictIncr, hEq, ih hnd.2 hk2]

/-- Bumping a present key succeeds (no duplicate-freeness needed) and
preserves the key list. -/
lemma dictIncr_isOk {m : List (String × Nat)} {k : String} (hk : k ∈ m.map Prod.fst) :
    ∃ r, dictIncr m k = Except.ok r ∧ r.map Prod.fst = m.map Prod.fst := by
  induction m with
  | nil => simp at hk
  | cons a rest ih =>
    cases a with
    | mk a1 a2 =>
      by_cases hEq : a1 = k
      · exact ⟨(a1, a2 + 1) :: rest, by simp [dictIncr, hEq], by simp⟩
      · simp only [List.map_cons, List.mem_cons] at hk
        rcases hk with hk | hk
        · exact absurd hk.symm hEq
        · obtain ⟨r, hr, hkeys⟩ := ih hk
          exact ⟨(a1, a2) :: r, by simp [dictIncr, hEq, hr], by simp [hkeys]⟩

/-- Bumping an absent key raises `KeyError` on that key. -/
lemma dictIncr_err {m : List (String × Nat)} {k : String} (hk : k ∉ m.map Prod.fst) :
    dictIncr m k = Except.error (PyErr.keyError k) := by
  induction m with
  | nil => rfl
  | cons a rest ih =>
    cases a with
    | mk a1 a2 =>
      simp only [List.map_cons, List.mem_cons, not_or] at hk
      simp [dictIncr, Ne.symm hk.1, ih hk.2]

@[simp] lemma dictFromKeys_fst (keys : List String) :
    (dictFromKeys keys).map Prod.fst = keys := by
  induction keys with
  | nil => rfl
  | cons k rest ih => simp [dictFromKeys] at ih ⊢; exact ih

lemma foldlM_congr {α β : Type} {f g : β → α → Except PyErr β} (l : List α)
    (h : ∀ acc x, x ∈ l → f acc x = g acc x) (b : β) :
    l.foldlM f b = l.foldlM g b := by
  induction l generalizing b with
  | nil => rfl
  | cons x xs ih =>
    simp only [List.foldlM_cons]
    rw [h b x (List.mem_cons_self x xs)]
    cases g b x with
    | error e => rfl
    | ok b2 =>
      simp only [ok_bind]
      exact ih (fun acc y hy => h acc y (List.mem_cons_of_mem x hy)) b2

end AiEntropy

/-! ### Characterizations of the counting folds -/

namespace AiEntropy

/-- The bump map preserves the key list. -/
@[simp] lemma bump_fst (m : List (String × Nat)) (k : String) :
    (m.map (fun kv => if kv.1 = k then (kv.1, kv.2 + 1) else kv)).map Prod.fst =
      m.map Prod.fst := by
  rw [List.map_map]
  apply List.map_congr_left
  intro kv _
  by_cases hEq : kv.1 = k <;> simp [Function.comp, hEq]

/-- The class-count fold of `entropy`: with duplicate-free keys covering
every result, it returns each key with its old count plus the number of
samples carrying that result. -/
lemma classCountFold (l : List Sample) :
    ∀ (m : List (String × Nat)), (m.map Prod.fst).Nodup →
      (∀ x ∈ l, x.result ∈ m.map Prod.fst) →
      l.foldlM (fun s x => dictIncr s x.result) m =
        Except.ok (m.map (fun kv =>
          (kv.1, kv.2 + l.countP (fun x => decide (x.result = kv.1))))) := by
  induction l with
  | nil =>
    intro m _ _
    simp only [List.foldlM_nil, List.countP_nil, Nat.add_zero, Prod.mk.eta]
    rw [List.map_id']
    rfl
  | cons x xs ih =>
    intro m hnd hres
    have hx : x.result ∈ m.map Prod.fst := hres x (List.mem_cons_self x xs)
    simp only [List.foldlM_cons, dictIncr_ok hnd hx, ok_bind]
    have hnd2 : ((m.map (fun kv => if kv.1 = x.result then (kv.1, kv.2 + 1) else kv)).map
        Prod.fst).Nodup := by
      rw [bump_fst]
      exact hnd
    have hres2 : ∀ y ∈ xs, y.result ∈
        (m.map (fun kv => if kv.1 = x.result then (kv.1, kv.2 + 1) else kv)).map Prod.fst := by
      intro y hy
      rw [bump_fst]
      exact hres y (List.mem_cons_of_mem x hy)
    rw [ih _ hnd2 hres2, List.map_map]
    congr 1
    apply List.map_congr_left
    intro kv _
    by_cases hEq : kv.1 = x.result
    · simp [Function.comp, hEq, List.countP_cons, Nat.add_assoc, Nat.add_comm]
    · have : ¬(x.result = kv.1) := fun hc => hEq hc.symm
      simp [Function.comp, hEq, List.countP_cons, this]

end AiEntropy

namespace AiEntropy

/-- Counting with a predicate that holds on the head. -/
lemma countP_cons_pos {p : Sample → Bool} {x : Sample} (l : List Sample) (h : p x = true) :
    (x :: l).countP p = l.countP p + 1 := by
  rw [List.countP_cons, h]
  rfl

/-- Counting with a predicate that fails on the head. -/
lemma countP_cons_neg {p : Sample → Bool} {x : Sample} (l : List Sample) (h : p x = false) :
    (x :: l).countP p = l.countP p := by
  rw [List.countP_cons, h]
  rfl

/-- The value-count fold of `gain` (keyed by the sample value at `i`). -/
lemma valueCountFold (i : Nat) (l : List Sample) :
    ∀ (m : List (String × Nat)), (m.map Prod.fst).Nodup →
      (∀ x ∈ l, i < x.values.length) →
      (∀ x ∈ l, keyAt i x ∈ m.map Prod.fst) →
      l.foldlM (fun s x => do
          let v ← pyIndex x.values i
          dictIncr s v) m =
        Except.ok (m.map (fun kv =>
          (kv.1, kv.2 + l.countP (fun x => decide (keyAt i x = kv.1))))) := by
  induction l with
  | nil =>
    intro m _ _ _
    simp only [List.foldlM_nil, List.countP_nil, Nat.add_zero, Prod.mk.eta]
    rw [List.map_id']
    rfl
  | cons x xs ih =>
    intro m hnd hlen hkey
    have hx : keyAt i x ∈ m.map Prod.fst := hkey x (List.mem_cons_self x xs)
    have hxl : i < x.values.length := hlen x (List.mem_cons_self x xs)
    simp only [List.foldlM_cons, pyIndex_ok hxl, ok_bind]
    rw [show x.values.getD i "" = keyAt i x from rfl, dictIncr_ok hnd hx]
    simp only [ok_bind]
    rw [ih _ (by rw [bump_fst]; exact hnd)
        (fun y hy => hlen y (List.mem_cons_of_mem x hy))
        (fun y hy => by rw [bump_fst]; exact hkey y (List.mem_cons_of_mem x hy)),
      List.map_map]
    congr 1
    apply List.map_congr_left
    intro kv _
    simp only [Function.comp_apply]
    by_cases hEq : kv.1 = keyAt i x
    · rw [if_pos hEq, countP_cons_pos _ (decide_eq_true hEq.symm)]
      simp only [Prod.mk.injEq, true_and]
      omega
    · rw [if_neg hEq, countP_cons_neg _ (decide_eq_false (fun hc => hEq hc.symm))]

/-- The combined match-count / class-count fold of `attribute_entropy`. -/
lemma attrCountFold (i : Nat) (value : String) (l : List Sample) :
    ∀ (c0 : Nat) (m : List (String × Nat)), (m.map Prod.fst).Nodup →
      (∀ x ∈ l, i < x.values.length) →
      (∀ x ∈ l, x.result ∈ m.map Prod.fst) →
      l.foldlM (fun acc x => do
          let v ← pyIndex x.values i
          if v = value then do
            let s ← dictIncr acc.2 x.result
            pure (acc.1 + 1, s)
          else pure acc) (c0, m) =
        Except.ok (c0 + l.countP (fun x => decide (keyAt i x = value)),
          m.map (fun kv => (kv.1, kv.2 +
            l.countP (fun x => decide (keyAt i x = value ∧ x.result = kv.1))))) := by
  induction l with
  | nil =>
    intro c0 m _ _ _
    simp only [List.foldlM_nil, List.countP_nil, Nat.add_zero, Prod.mk.eta]
    rw [List.map_id']
    rfl
  | cons x xs ih =>
    intro c0 m hnd hlen hres
    have hxl : i < x.values.length := hlen x (List.mem_cons_self x xs)
    have hxr : x.result ∈ m.map Prod.fst := hres x (List.mem_cons_self x xs)
    simp only [List.foldlM_cons, pyIndex_ok hxl, ok_bind]
    rw [show x.values.getD i "" = keyAt i x from rfl]
    by_cases hv : keyAt i x = value
    · rw [if_pos hv, dictIncr_ok hnd hxr]
      simp only [ok_bind, pure_bind]
      rw [ih (c0 + 1) _ (by rw [bump_fst]; exact hnd)
          (fun y hy => hlen y (List.mem_cons_of_mem x hy))
          (fun y hy => by rw [bump_fst]; exact hres y (List.mem_cons_of_mem x hy)),
        List.map_map]
      rw [countP_cons_pos _ (decide_eq_true hv)]
      congr 2
      · omega
      · apply List.map_congr_left
        intro kv _
        simp only [Function.comp_apply]
        by_cases hEq : kv.1 = x.result
        · rw [if_pos hEq,
            countP_cons_pos _ (decide_eq_true (show keyAt i x = value ∧ x.result = kv.1
              from ⟨hv, hEq.symm⟩))]
          simp only [Prod.mk.injEq, true_and]
          omega
        · rw [if_neg hEq,
            countP_cons_neg _ (decide_eq_false
              (show ¬(keyAt i x = value ∧ x.result = kv.1) from fun hc => hEq hc.2.symm))]
    · rw [if_neg hv]
      simp only [pure_bind]
      rw [ih c0 m hnd (fun y hy => hlen y (List.mem_cons_of_mem x hy))
          (fun y hy => hres y (List.mem_cons_of_mem x hy))]
      rw [countP_cons_neg _ (decide_eq_false hv)]
      congr 2
      apply List.map_congr_left
      intro kv _
      rw [countP_cons_neg _ (decide_eq_false
        (show ¬(keyAt i x = value ∧ x.result = kv.1) from fun hc => hv hc.1))]

end AiEntropy

namespace AiEntropy

/-- With a non-zero cardinality, the entropy loop never raises. -/
lemma foldlM_entStep_ok {c : Nat} (hc : c ≠ 0) :
    ∀ (l : List (String × Nat)) (e : ℝ),
      l.foldlM (entStep c) e = Except.ok (l.foldl (entStepP c) e) := by
  intro l
  induction l with
  | nil => intro e; rfl
  | cons kv rest ih =>
    intro e
    simp only [List.foldlM_cons, List.foldl_cons, entStep, if_neg hc, ok_bind]
    exact ih (entStepP c e kv)

/-- With cardinality zero and a non-empty counter, the entropy loop raises
`ZeroDivisionError` at its first iteration. -/
lemma foldlM_entStep_err {l : List (String × Nat)} (hl : l ≠ []) (e : ℝ) :
    l.foldlM (entStep 0) e = Except.error PyErr.zeroDiv := by
  cases l with
  | nil => exact absurd rfl hl
  | cons kv rest => rfl

/-- `index_of_attribute` via the enumeration loop: failure case. -/
lemma indexOfAux_err (attrName : String) :
    ∀ (l : List Attribute) (i : Nat), attrName ∉ l.map Attribute.name →
      indexOfAux l i attrName = Except.error (PyErr.exception (errMsg attrName)) := by
  intro l
  induction l with
  | nil => intro i _; rfl
  | cons a rest ih =>
    intro i h
    simp only [List.map_cons, List.mem_cons, not_or] at h
    simp only [indexOfAux, if_neg (Ne.symm h.1)]
    exact ih (i + 1) h.2

/-- `index_of_attribute` on an undeclared name raises the exception that
names the offending attribute. -/
lemma index_of_attribute_err {ss : SampleSet} {attrName : String}
    (h : attrName ∉ ss.attributes.map Attribute.name) :
    ss.index_of_attribute attrName = Except.error (PyErr.exception (errMsg attrName)) :=
  indexOfAux_err attrName ss.attributes 0 h

/-- A successful lookup returns an in-range index whose attribute carries
the requested name. -/
lemma indexOfAux_ok (attrName : String) :
    ∀ (l : List Attribute) (i j : Nat), indexOfAux l i attrName = Except.ok j →
      i ≤ j ∧ j - i < l.length ∧ (l.getD (j - i) ⟨"", []⟩).name = attrName := by
  intro l
  induction l with
  | nil => intro i j h; exact absurd h (by simp [indexOfAux])
  | cons a rest ih =>
    intro i j h
    by_cases hEq : a.name = attrName
    · simp only [indexOfAux, if_pos hEq] at h
      cases h
      refine ⟨Nat.le_refl _, ?_, ?_⟩
      · simp
      · simp [Nat.sub_self, hEq]
    · simp only [indexOfAux, if_neg hEq] at h
      obtain ⟨h1, h2, h3⟩ := ih (i + 1) j h
      refine ⟨by omega, by simp; omega, ?_⟩
      have hji : j - i = (j - (i + 1)) + 1 := by omega
      rw [hji]
      simpa using h3

lemma index_of_attribute_ok {ss : SampleSet} {attrName : String} {i : Nat}
    (h : ss.index_of_attribute attrName = Except.ok i) :
    i < ss.attributes.length ∧ (ss.attributes.getD i ⟨"", []⟩).name = attrName := by
  obtain ⟨_, h2, h3⟩ := indexOfAux_ok attrName ss.attributes 0 i h
  constructor
  · simpa using h2
  · simpa using h3

end AiEntropy

namespace AiEntropy

/-- Extracting pointwise facts from a `zip`-`all` check. -/
lemma zip_all_get :
    ∀ (l1 : List String) (l2 : List Attribute) (p : String × Attribute → Bool),
      (l1.zip l2).all p = true → ∀ i, i < l1.length → i < l2.length →
        p (l1.getD i "", l2.getD i ⟨"", []⟩) = true := by
  intro l1
  induction l1 with
  | nil => intro l2 p _ i h1 _; exact absurd h1 (by simp)
  | cons v vs ih =>
    intro l2 p hall i h1 h2
    cases l2 with
    | nil => exact absurd h2 (by simp)
    | cons a as =>
      simp only [List.zip_cons_cons, List.all_cons, Bool.and_eq_true] at hall
      cases i with
      | zero => simpa using hall.1
      | succ n =>
        simp only [List.length_cons, Nat.succ_lt_succ_iff] at h1 h2
        simpa using ih as p hall.2 n h1 h2

lemma conformant_result {ss : SampleSet} (h : ss.conformant = true) :
    ∀ x ∈ ss.samples, x.result ∈ ss.classes := by
  intro x hx
  have hx2 := List.all_eq_true.mp h x hx
  simp only [Sample.conformsTo, Bool.and_eq_true] at hx2
  exact List.elem_iff.mp hx2.1.1

lemma conformant_length {ss : SampleSet} (h : ss.conformant = true) :
    ∀ x ∈ ss.samples, x.values.length = ss.attributes.length := by
  intro x hx
  have hx2 := List.all_eq_true.mp h x hx
  simp only [Sample.conformsTo, Bool.and_eq_true] at hx2
  exact beq_iff_eq.mp hx2.1.2

lemma conformant_value {ss : SampleSet} (h : ss.conformant = true) :
    ∀ x ∈ ss.samples, ∀ i, i < ss.attributes.length →
      keyAt i x ∈ (ss.attributes.getD i ⟨"", []⟩).values := by
  intro x hx i hi
  have hx2 := List.all_eq_true.mp h x hx
  simp only [Sample.conformsTo, Bool.and_eq_true] at hx2
  have hlen : x.values.length = ss.attributes.length := beq_iff_eq.mp hx2.1.2
  have := zip_all_get x.values ss.attributes _ hx2.2 i (by omega) hi
  exact List.elem_iff.mp this

/-- The class-count dict of a conformant `SampleSet`, in class order. -/
lemma classCounts_char {ss : SampleSet} (hnd : ss.classes.Nodup)
    (hres : ∀ x ∈ ss.samples, x.result ∈ ss.classes) :
    ss.classCounts = Except.ok (ss.classes.map (fun cl =>
      (cl, ss.samples.countP (fun x => decide (x.result = cl))))) := by
  rw [SampleSet.classCounts,
    classCountFold ss.samples (dictFromKeys ss.classes)
      (by rw [dictFromKeys_fst]; exact hnd)
      (fun x hx => by rw [dictFromKeys_fst]; exact hres x hx)]
  simp [dictFromKeys, List.map_map, Function.comp]

/-- The match/class counts of `attribute_entropy` for a conformant set. -/
lemma attrClassCounts_char {ss : SampleSet} {i : Nat} (value : String)
    (hnd : ss.classes.Nodup)
    (hlen : ∀ x ∈ ss.samples, i < x.values.length)
    (hres : ∀ x ∈ ss.samples, x.result ∈ ss.classes) :
    ss.attrClassCounts i value =
      Except.ok (ss.samples.countP (fun x => decide (keyAt i x = value)),
        ss.classes.map (fun cl => (cl, ss.samples.countP
          (fun x => decide (keyAt i x = value ∧ x.result = cl))))) := by
  rw [SampleSet.attrClassCounts,
    attrCountFold i value ss.samples 0 (dictFromKeys ss.classes)
      (by rw [dictFromKeys_fst]; exact hnd)
      hlen
      (fun x hx => by rw [dictFromKeys_fst]; exact hres x hx)]
  simp [dictFromKeys, List.map_map, Function.comp]

/-- The value-count dict of `gain` for a conformant set. -/
lemma valueCounts_char {ss : SampleSet} {i : Nat} {a : Attribute}
    (hi : i < ss.attributes.length) (ha : ss.attributes.getD i ⟨"", []⟩ = a)
    (hand : a.values.Nodup)
    (hlen : ∀ x ∈ ss.samples, i < x.values.length)
    (hval : ∀ x ∈ ss.samples, keyAt i x ∈ a.values) :
    ss.valueCounts i = Except.ok (a.values.map (fun v =>
      (v, ss.samples.countP (fun x => decide (keyAt i x = v))))) := by
  rw [SampleSet.valueCounts, pyIndexA_ok hi, ha]
  simp only [ok_bind]
  rw [valueCountFold i ss.samples (dictFromKeys a.values)
      (by rw [dictFromKeys_fst]; exact hand)
      hlen
      (fun x hx => by rw [dictFromKeys_fst]; exact hval x hx)]
  simp [dictFromKeys, List.map_map, Function.comp]

end AiEntropy

namespace AiEntropy

/-- `entropy` of a conformant set with duplicate-free classes, as the pure
entropy loop over the canonical class counts. -/
lemma entropy_char {ss : SampleSet} (hnd : ss.classes.Nodup)
    (hres : ∀ x ∈ ss.samples, x.result ∈ ss.classes) :
    ss.entropy = (ss.classes.map (fun cl =>
        (cl, ss.samples.countP (fun x => decide (x.result = cl))))).foldlM
      (entStep ss.samples.length) 0 := by
  rw [SampleSet.entropy, classCounts_char hnd hres]
  rfl

/-- The class-count fold succeeds whenever every result is a declared class
(no duplicate-freeness needed); the resulting keys are unchanged. -/
lemma classCountFold_isOk (l : List Sample) :
    ∀ (m : List (String × Nat)), (∀ x ∈ l, x.result ∈ m.map Prod.fst) →
      ∃ r, l.foldlM (fun s x => dictIncr s x.result) m = Except.ok r ∧
        r.map Prod.fst = m.map Prod.fst := by
  induction l with
  | nil => intro m _; exact ⟨m, rfl, rfl⟩
  | cons x xs ih =>
    intro m hres
    obtain ⟨r1, hr1, hk1⟩ := dictIncr_isOk (hres x (List.mem_cons_self x xs))
    obtain ⟨r2, hr2, hk2⟩ := ih r1 (fun y hy => hk1 ▸ hres y (List.mem_cons_of_mem x hy))
    exact ⟨r2, by simp only [List.foldlM_cons, hr1, ok_bind, hr2], hk1 ▸ hk2⟩

/-- `entropy` succeeds on any conformant, non-empty sample collection. -/
lemma entropy_isOk {ss : SampleSet} (hconf : ss.conformant = true)
    (hne : ss.samples ≠ []) : ∃ e, ss.entropy = Except.ok e := by
  obtain ⟨r, hr, _⟩ := classCountFold_isOk ss.samples (dictFromKeys ss.classes)
    (fun x hx => by rw [dictFromKeys_fst]; exact conformant_result hconf x hx)
  have hc : ss.samples.length ≠ 0 := fun h => hne (List.length_eq_zero.mp h)
  refine ⟨r.foldl (entStepP ss.samples.length) 0, ?_⟩
  rw [SampleSet.entropy, SampleSet.classCounts, hr]
  simp only [ok_bind]
  exact foldlM_entStep_ok hc r 0

/-- `entropy` on an empty sample collection with at least one declared class
raises the raw `ZeroDivisionError` of `frac = v / c` with `c = 0`. -/
lemma entropy_empty_err {ss : SampleSet} (hs : ss.samples = []) (hc : ss.classes ≠ []) :
    ss.entropy = Except.error PyErr.zeroDiv := by
  rw [SampleSet.entropy, SampleSet.classCounts, hs]
  simp only [List.foldlM_nil, List.length_nil]
  have hne : dictFromKeys ss.classes ≠ [] := by
    cases hcl : ss.classes with
    | nil => exact absurd hcl hc
    | cons c rest => simp [dictFromKeys, hcl]
  calc (pure (dictFromKeys ss.classes) : Except PyErr _) >>=
        (fun s => s.foldlM (entStep 0) 0)
      = (dictFromKeys ss.classes).foldlM (entStep 0) 0 := by rw [pure_bind]
    _ = Except.error PyErr.zeroDiv := foldlM_entStep_err hne 0

/-- The `attribute_entropy` counting loop leaves its accumulator unchanged
when no sample matches the value. -/
lemma attrCountFold_noMatch {i : Nat} {value : String} (l : List Sample)
    (hlen : ∀ x ∈ l, i < x.values.length)
    (hnom : ∀ x ∈ l, keyAt i x ≠ value) :
    ∀ acc : Nat × List (String × Nat),
      l.foldlM (fun acc x => do
          let v ← pyIndex x.values i
          if v = value then do
            let s ← dictIncr acc.2 x.result
            pure (acc.1 + 1, s)
          else pure acc) acc = Except.ok acc := by
  induction l with
  | nil => intro acc; rfl
  | cons x xs ih =>
    intro acc
    have hxl : i < x.values.length := hlen x (List.mem_cons_self x xs)
    simp only [List.foldlM_cons, pyIndex_ok hxl, ok_bind]
    rw [show x.values.getD i "" = keyAt i x from rfl,
      if_neg (hnom x (List.mem_cons_self x xs))]
    simp only [pure_bind]
    exact ih (fun y hy => hlen y (List.mem_cons_of_mem x hy))
      (fun y hy => hnom y (List.mem_cons_of_mem x hy)) acc

/-- `attribute_entropy` on a value with no matching samples raises the raw
`ZeroDivisionError` of `frac = v / c` with `c = 0` (the subset counter). -/
lemma attribute_entropy_noMatch_err {ss : SampleSet} {aName value : String} {i : Nat}
    (hidx : ss.index_of_attribute aName = Except.ok i)
    (hconf : ss.conformant = true)
    (hnom : ss.samples.countP (fun x => decide (keyAt i x = value)) = 0)
    (hc : ss.classes ≠ []) :
    ss.attribute_entropy (AttrRef.byName aName) value = Except.error PyErr.zeroDiv := by
  have hi : i < ss.attributes.length := (index_of_attribute_ok hidx).1
  have hlen : ∀ x ∈ ss.samples, i < x.values.length := by
    intro x hx
    have := conformant_length hconf x hx
    omega
  have hnom2 : ∀ x ∈ ss.samples, keyAt i x ≠ value := by
    intro x hx
    have := List.countP_eq_zero.mp hnom x hx
    simpa using this
  rw [SampleSet.attribute_entropy]
  simp only [AttrRef.resolve, hidx, ok_bind]
  rw [SampleSet.attrClassCounts, attrCountFold_noMatch ss.samples hlen hnom2]
  simp only [ok_bind]
  have hne : dictFromKeys ss.classes ≠ [] := by
    cases hcl : ss.classes with
    | nil => exact absurd hcl hc
    | cons c rest => simp [dictFromKeys, hcl]
  exact foldlM_entStep_err hne 0

end AiEntropy

/-! ### Reference semantics of `SampleSet.__init__(..., samples=list())`

The Python default argument `samples=list()` is evaluated once, when the
function object is created; every construction that omits `samples` binds
`self.samples` to that one list object.  The heap below models Python list
objects by identity (cell index), with cell `0` being the shared default. -/

namespace AiEntropy

/-- A heap of Python list objects (cells addressed by index). -/
structure PyHeap where
  cells : List (List Sample)
deriving DecidableEq

/-- The initial heap: cell `0` holds the single shared default list created
when `SampleSet.__init__` was defined. -/
def initHeap : PyHeap := ⟨[[]]⟩

/-- A `SampleSet` whose `samples` field is a reference to a heap cell. -/
structure SampleSetRef where
  attributes : List Attribute
  classes : List String
  samplesRef : Nat
deriving DecidableEq

/-- `SampleSet(attributes, classes)` — construction that omits `samples`:
`self.samples` is bound to the shared default cell `0`. -/
def SampleSet_init_default (attributes : List Attribute) (classes : List String) :
    SampleSetRef :=
  ⟨attributes, classes, 0⟩

/-- Read the list object a `SampleSet`'s `samples` refers to. -/
def PyHeap.read (h : PyHeap) (r : Nat) : List Sample :=
  h.cells.getD r []

/-- `add_sample`: `self.samples.append(sample)` mutates the referenced list
object in place. -/
def SampleSetRef.add_sample (ss : SampleSetRef) (h : PyHeap) (sample : Sample) : PyHeap :=
  ⟨h.cells.set ss.samplesRef (h.read ss.samplesRef ++ [sample])⟩

/-- C1: the claim states that `gain` guards against calling
`attribute_entropy` on an empty partition, so that a declared but unobserved
value contributes `0` without error.  The code has no such guard:
`gain -= frac * self.attribute_entropy(i, k)` calls `attribute_entropy`
even when `frac` is `0`, and inside `attribute_entropy` the subset counter
`c` is `0`, so `frac = v / c` raises `ZeroDivisionError`.  Witnessed here on
a one-sample set whose attribute `a` declares the unobserved value `y`:
`gain("a")` evaluates to the zero-division error instead of a number. -/
theorem C1_gain_unobserved_value_zero_div :
    (SampleSet.mk [⟨"a", ["x", "y"]⟩] ["yes", "no"] [⟨"yes", ["x"]⟩]).gain "a"
      = Except.error PyErr.zeroDiv := rfl

/-- C2: the claim states that `attribute_gain(attr1, value, attr2)` completes
without error when a legal value of `attr2` has no matching samples inside
the `attr1 == value` subset.  In the code such an empty partition makes
`info_function` receive an all-zero count list, whose `total` is `0`, so the
first `value / total` raises `ZeroDivisionError`.  Witnessed on a one-sample
set: attribute `b` declares `v`, which never occurs among the samples with
`a == "x"`, and `attribute_gain("a", "x", "b")` evaluates to the
zero-division error. -/
theorem C2_attribute_gain_empty_partition_zero_div :
    (SampleSet.mk [⟨"a", ["x", "y"]⟩, ⟨"b", ["u", "v"]⟩] ["yes", "no"]
        [⟨"yes", ["x", "u"]⟩]).attribute_gain "a" "x" "b"
      = Except.error PyErr.zeroDiv := rfl

/-- C3: the claim states that two SampleSets constructed without explicit
sample collections own independent storage.  In the code the default
argument `samples=list()` is a single list object shared by every such
construction: after appending one sample through the first set, the second
set's collection reads back as that one-element list, not `[]`. -/
theorem C3_shared_default_collection :
    (SampleSetRef.add_sample
        (SampleSet_init_default [⟨"a", ["x"]⟩] ["yes", "no"]) initHeap ⟨"yes", ["x"]⟩).read
      (SampleSet_init_default [⟨"b", ["u"]⟩] ["yes", "no"]).samplesRef
      = [⟨"yes", ["x"]⟩] := rfl

/-- C4 counterexample: the claim states that `entropy()` over zero samples
and `attribute_entropy` over an empty match set signal a distinct
empty-population condition rather than a raw division-by-zero artifact.  In
the code both are exactly the raw `ZeroDivisionError` of `frac = v / c` with
`c = 0`: evaluated here on an empty set and on a set where value `y` is
never observed. -/
theorem C4_counterexample_zero_div_artifact :
    (SampleSet.mk [⟨"a", ["x"]⟩] ["yes", "no"] []).entropy
        = Except.error PyErr.zeroDiv ∧
    (SampleSet.mk [⟨"a", ["x", "y"]⟩] ["yes", "no"] [⟨"yes", ["x"]⟩]).attribute_entropy
        (AttrRef.byName "a") "y" = Except.error PyErr.zeroDiv :=
  ⟨rfl, rfl⟩

/-- C4 amended: `entropy()` on zero samples (with at least one declared
class) and `attribute_entropy` with no sample matching the value (on a
conformant set with at least one declared class) each raise the
`ZeroDivisionError` of the count division — a stopping error rather than a
`NaN`/`Infinity` value, but the raw division-by-zero error, not a distinct
empty-population condition. -/
theorem C4_empty_population_is_zero_div :
    (∀ ss : SampleSet, ss.samples = [] → ss.classes ≠ [] →
      ss.entropy = Except.error PyErr.zeroDiv) ∧
    (∀ (ss : SampleSet) (aName value : String) (i : Nat),
      ss.index_of_attribute aName = Except.ok i →
      ss.conformant = true →
      ss.samples.countP (fun x => decide (keyAt i x = value)) = 0 →
      ss.classes ≠ [] →
      ss.attribute_entropy (AttrRef.byName aName) value = Except.error PyErr.zeroDiv) :=
  ⟨fun _ hs hc => entropy_empty_err hs hc,
   fun _ _ _ _ hidx hconf hnom hc => attribute_entropy_noMatch_err hidx hconf hnom hc⟩

/-- C4 witness: the amended statement applied at concrete inputs. -/
theorem C4_empty_population_witness :
    ((SampleSet.mk [⟨"a", ["x"]⟩] ["yes"] []).samples = [] ∧
      (SampleSet.mk [⟨"a", ["x"]⟩] ["yes"] []).classes ≠ [] ∧
      (SampleSet.mk [⟨"a", ["x"]⟩] ["yes"] []).entropy = Except.error PyErr.zeroDiv) ∧
    ((SampleSet.mk [⟨"a", ["x", "y"]⟩] ["yes"] [⟨"yes", ["x"]⟩]).index_of_attribute "a"
        = Except.ok 0 ∧
      (SampleSet.mk [⟨"a", ["x", "y"]⟩] ["yes"] [⟨"yes", ["x"]⟩]).conformant = true ∧
      (SampleSet.mk [⟨"a", ["x", "y"]⟩] ["yes"] [⟨"yes", ["x"]⟩]).attribute_entropy
        (AttrRef.byName "a") "y" = Except.error PyErr.zeroDiv) :=
  ⟨⟨rfl, by decide,
      C4_empty_population_is_zero_div.1 _ rfl (by decide)⟩,
   ⟨rfl, by decide,
      C4_empty_population_is_zero_div.2 _ "a" "y" 0 rfl (by decide) (by decide) (by decide)⟩⟩

end AiEntropy

namespace AiEntropy

/-- C5 counterexample: the claim states that a schema-violating sample is
rejected with an error at construction or insertion time.  In the code
neither `Sample.__init__` nor `add_sample` validates anything: the sample
`("maybe", ())` — wrong tuple length, undeclared class label — is accepted
into the collection, and the violation only surfaces later, at computation
time, as the `KeyError` raised inside `entropy`'s counting loop. -/
theorem C5_counterexample_no_fail_fast :
    ((SampleSet.mk [⟨"a", ["x"]⟩] ["yes"] []).add_sample ⟨"maybe", []⟩).samples
        = [⟨"maybe", []⟩] ∧
    ((SampleSet.mk [⟨"a", ["x"]⟩] ["yes"] []).add_sample ⟨"maybe", []⟩).entropy
        = Except.error (PyErr.keyError "maybe") :=
  ⟨rfl, rfl⟩

/-- C5 amended: construction and insertion perform no schema validation —
`add_sample` appends any sample whatsoever — and a violation such as an
undeclared class label surfaces only at computation time, as a `KeyError`
from `entropy`'s counting loop. -/
theorem C5_no_insertion_validation :
    (∀ (ss : SampleSet) (s : Sample), (ss.add_sample s).samples = ss.samples ++ [s]) ∧
    (∀ (ss : SampleSet) (s : Sample), ss.samples = [] → s.result ∉ ss.classes →
      (ss.add_sample s).entropy = Except.error (PyErr.keyError s.result)) := by
  constructor
  · intro ss s
    rfl
  · intro ss s hs hres
    rw [SampleSet.entropy, SampleSet.classCounts]
    have hsam : (ss.add_sample s).samples = [s] := by
      rw [SampleSet.add_sample]
      simp [hs]
    have hcls : (ss.add_sample s).classes = ss.classes := rfl
    rw [hsam, hcls]
    simp only [List.foldlM_cons, List.foldlM_nil]
    rw [dictIncr_err (by rw [dictFromKeys_fst]; exact hres)]
    rfl

/-- C5 witness: the amended statement applied at concrete inputs. -/
theorem C5_no_insertion_validation_witness :
    ((SampleSet.mk [⟨"a", ["x"]⟩] ["yes"] []).add_sample ⟨"maybe", []⟩).samples
        = [] ++ [⟨"maybe", []⟩] ∧
    ((SampleSet.mk [⟨"a", ["x"]⟩] ["yes"] []).samples = [] ∧
      ("maybe" : String) ∉ (SampleSet.mk [⟨"a", ["x"]⟩] ["yes"] []).classes ∧
      ((SampleSet.mk [⟨"a", ["x"]⟩] ["yes"] []).add_sample ⟨"maybe", []⟩).entropy
        = Except.error (PyErr.keyError "maybe")) :=
  ⟨C5_no_insertion_validation.1 _ _,
   ⟨rfl, by decide, C5_no_insertion_validation.2 _ ⟨"maybe", []⟩ rfl (by decide)⟩⟩

/-- C8 counterexample: the claim states that `gain` on an undeclared name
signals the attribute-not-found error for every such name.  On an empty
sample collection `gain` computes `entropy()` before resolving the name, so
`gain("zzz")` raises the `ZeroDivisionError` of the empty population, not
the attribute exception. -/
theorem C8_counterexample_gain_empty :
    (SampleSet.mk [⟨"a", ["x"]⟩] ["yes"] []).gain "zzz" = Except.error PyErr.zeroDiv ∧
    (Except.error PyErr.zeroDiv : Except PyErr ℝ) ≠
      Except.error (PyErr.exception (errMsg "zzz")) :=
  ⟨rfl, fun h => by cases h⟩

/-- C8 amended: `index_of_attribute` on an undeclared name always raises the
exception that names the offending attribute (never returning an index);
`gain` propagates that exception whenever the initial `entropy()` succeeds —
in particular on every conformant, non-empty sample collection — and
`attribute_gain` raises it unconditionally for an undeclared first
attribute, since the lookup is its first step. -/
theorem C8_attribute_not_found :
    (∀ (ss : SampleSet) (nm : String), nm ∉ ss.attributes.map Attribute.name →
      ss.index_of_attribute nm = Except.error (PyErr.exception (errMsg nm))) ∧
    (∀ (ss : SampleSet) (nm : String), nm ∉ ss.attributes.map Attribute.name →
      ss.conformant = true → ss.samples ≠ [] →
      ss.gain nm = Except.error (PyErr.exception (errMsg nm))) ∧
    (∀ (ss : SampleSet) (nm value attr2 : String), nm ∉ ss.attributes.map Attribute.name →
      ss.attribute_gain nm value attr2 = Except.error (PyErr.exception (errMsg nm))) := by
  refine ⟨fun ss nm h => index_of_attribute_err h, ?_, ?_⟩
  · intro ss nm h hconf hne
    obtain ⟨e, he⟩ := entropy_isOk hconf hne
    rw [SampleSet.gain, he]
    simp only [ok_bind]
    rw [index_of_attribute_err h]
    rfl
  · intro ss nm value attr2 h
    rw [SampleSet.attribute_gain, index_of_attribute_err h]
    rfl

/-- C8 witness: the amended statement applied at concrete inputs. -/
theorem C8_attribute_not_found_witness :
    (("zzz" : String) ∉ (SampleSet.mk [⟨"a", ["x"]⟩] ["yes"] [⟨"yes", ["x"]⟩]).attributes.map
        Attribute.name ∧
      (SampleSet.mk [⟨"a", ["x"]⟩] ["yes"] [⟨"yes", ["x"]⟩]).index_of_attribute "zzz"
        = Except.error (PyErr.exception (errMsg "zzz"))) ∧
    ((SampleSet.mk [⟨"a", ["x"]⟩] ["yes"] [⟨"yes", ["x"]⟩]).conformant = true ∧
      (SampleSet.mk [⟨"a", ["x"]⟩] ["yes"] [⟨"yes", ["x"]⟩]).samples ≠ [] ∧
      (SampleSet.mk [⟨"a", ["x"]⟩] ["yes"] [⟨"yes", ["x"]⟩]).gain "zzz"
        = Except.error (PyErr.exception (errMsg "zzz"))) ∧
    (SampleSet.mk [⟨"a", ["x"]⟩] ["yes"] [⟨"yes", ["x"]⟩]).attribute_gain "zzz" "x" "a"
      = Except.error (PyErr.exception (errMsg "zzz")) :=
  ⟨⟨by decide, C8_attribute_not_found.1 _ "zzz" (by decide)⟩,
   ⟨by decide, by decide,
     C8_attribute_not_found.2.1 _ "zzz" (by decide) (by decide) (by decide)⟩,
   C8_attribute_not_found.2.2 _ "zzz" "x" "a" (by decide)⟩

end AiEntropy

namespace AiEntropy

/-- Accumulation of the `info_function` loop as a sum over the list. -/
lemma foldl_infoAcc (t : ℝ) (l : List ℕ) :
    ∀ i : ℝ,
      l.foldl (fun (i : ℝ) (v : ℕ) =>
          let frac := (v : ℝ) / t
          if frac ≠ 0 then i - frac * Real.logb 2 frac else i) i
        = i + (l.map (fun (v : ℕ) =>
            if ((v : ℝ) / t) ≠ 0
            then -(((v : ℝ) / t) * Real.logb 2 ((v : ℝ) / t)) else 0)).sum := by
  induction l with
  | nil => intro i; simp
  | cons v vs ih =>
    intro i
    simp only [List.foldl_cons, List.map_cons, List.sum_cons]
    by_cases h : ((v : ℝ) / t) ≠ 0
    · rw [ih]
      simp only [if_pos h]
      ring
    · rw [ih]
      simp only [if_neg h]
      ring

/-- Dropping the zero entries does not change the summed contributions. -/
lemma sum_info_filter {t : ℝ} (ht : t ≠ 0) (l : List ℕ) :
    (l.map (fun (v : ℕ) =>
        if ((v : ℝ) / t) ≠ 0
        then -(((v : ℝ) / t) * Real.logb 2 ((v : ℝ) / t)) else 0)).sum
      = ((l.filter (fun v => decide (v ≠ 0))).map (fun (v : ℕ) =>
          -(((v : ℝ) / t) * Real.logb 2 ((v : ℝ) / t)))).sum := by
  induction l with
  | nil => rfl
  | cons v vs ih =>
    by_cases hv : v = 0
    · subst hv
      have hc : ¬((((0 : ℕ) : ℝ) / t) ≠ 0) := by simp
      have hfilter : ((0 : ℕ) :: vs).filter (fun v => decide (v ≠ 0)) =
          vs.filter (fun v => decide (v ≠ 0)) :=
        List.filter_cons_of_neg (by simp)
      rw [List.map_cons, List.sum_cons, if_neg hc, hfilter, ih, zero_add]
    · have hfrac : ((v : ℝ) / t) ≠ 0 :=
        div_ne_zero (Nat.cast_ne_zero.mpr hv) ht
      have hfilter : (v :: vs).filter (fun v => decide (v ≠ 0)) =
          v :: vs.filter (fun v => decide (v ≠ 0)) :=
        List.filter_cons_of_pos (by simpa using hv)
      rw [List.map_cons, List.sum_cons, if_pos hfrac, hfilter, List.map_cons,
        List.sum_cons, ih]

/-- C9: `info_function([0, n])` is exactly `0` for `n > 0` (no `NaN`), and
whenever the total is positive `info_function` returns the sum of the
contributions of the non-zero entries only — zero entries contribute `0`
and no logarithm is taken at `0`. -/
theorem C9_info_function_zero_fraction_safety :
    (∀ n : ℕ, 0 < n → info_function [0, n] = Except.ok 0) ∧
    (∀ values : List ℕ, values.sum ≠ 0 →
      info_function values = Except.ok
        (((values.filter (fun v => decide (v ≠ 0))).map (fun (v : ℕ) =>
          -(((v : ℝ) / (values.sum : ℝ)) *
            Real.logb 2 ((v : ℝ) / (values.sum : ℝ))))).sum)) := by
  have hgen : ∀ values : List ℕ, values.sum ≠ 0 →
      info_function values = Except.ok
        (((values.filter (fun v => decide (v ≠ 0))).map (fun (v : ℕ) =>
          -(((v : ℝ) / (values.sum : ℝ)) *
            Real.logb 2 ((v : ℝ) / (values.sum : ℝ))))).sum) := by
    intro values hsum
    have hne : values.isEmpty = false := by
      cases values with
      | nil => exact absurd rfl hsum
      | cons v vs => rfl
    rw [info_function, hne, if_neg (by simp), if_neg hsum, infoVal,
      foldl_infoAcc ((values.sum : ℕ) : ℝ) values 0,
      sum_info_filter (Nat.cast_ne_zero.mpr hsum) values, zero_add]
  constructor
  · intro n hn
    have hsum : ([0, n] : List ℕ).sum ≠ 0 := by simp; omega
    rw [hgen [0, n] hsum]
    have h0 : (([0, n] : List ℕ).filter (fun v => decide (v ≠ 0))) = [n] := by
      simp only [List.filter_cons, List.filter_nil]
      norm_num [decide_eq_true (by omega : n ≠ 0)]
    rw [h0]
    have hnotz : (n : ℝ) ≠ 0 := Nat.cast_ne_zero.mpr (by omega)
    norm_num [div_self hnotz, Real.logb_one]
  · exact hgen

/-- C9 witness: both parts applied at concrete inputs. -/
theorem C9_info_function_witness :
    (0 < 2 ∧ info_function [0, 2] = Except.ok 0) ∧
    (([1, 1] : List ℕ).sum ≠ 0 ∧
      info_function [1, 1] = Except.ok
        (((([1, 1] : List ℕ).filter (fun v => decide (v ≠ 0))).map (fun (v : ℕ) =>
          -(((v : ℝ) / (([1, 1] : List ℕ).sum : ℝ)) *
            Real.logb 2 ((v : ℝ) / (([1, 1] : List ℕ).sum : ℝ))))).sum)) :=
  ⟨⟨by norm_num, C9_info_function_zero_fraction_safety.1 2 (by norm_num)⟩,
   ⟨by norm_num, C9_info_function_zero_fraction_safety.2 [1, 1] (by norm_num)⟩⟩

end AiEntropy

namespace AiEntropy

lemma getD_mem {l : List Attribute} {i : Nat} (h : i < l.length) :
    l.getD i ⟨"", []⟩ ∈ l := by
  rw [List.getD_eq_getElem?_getD, List.getElem?_eq_getElem h]
  exact List.getElem_mem h

/-- Conformance transfers along a permutation of the samples. -/
lemma conformant_perm {ss1 ss2 : SampleSet} (ha : ss1.attributes = ss2.attributes)
    (hc : ss1.classes = ss2.classes) (hp : ss1.samples.Perm ss2.samples)
    (hconf : ss1.conformant = true) : ss2.conformant = true := by
  rw [SampleSet.conformant, List.all_eq_true]
  intro x hx
  have hx1 := List.all_eq_true.mp hconf x (hp.mem_iff.mpr hx)
  rw [← ha, ← hc]
  exact hx1

/-- `entropy` is insensitive to the order of the sample collection. -/
lemma entropy_perm {ss1 ss2 : SampleSet}
    (hc : ss1.classes = ss2.classes) (hp : ss1.samples.Perm ss2.samples)
    (hnd : ss1.classes.Nodup)
    (hres1 : ∀ x ∈ ss1.samples, x.result ∈ ss1.classes)
    (hres2 : ∀ x ∈ ss2.samples, x.result ∈ ss2.classes) :
    ss1.entropy = ss2.entropy := by
  rw [entropy_char hnd hres1, entropy_char (hc ▸ hnd) hres2, hp.length_eq, ← hc]
  congr 1
  apply List.map_congr_left
  intro cl _
  rw [hp.countP_eq]

/-- `attribute_entropy` (by index) is insensitive to the sample order. -/
lemma attribute_entropy_perm {ss1 ss2 : SampleSet}
    (ha : ss1.attributes = ss2.attributes)
    (hc : ss1.classes = ss2.classes) (hp : ss1.samples.Perm ss2.samples)
    (hnd : ss1.classes.Nodup)
    (hconf1 : ss1.conformant = true) (hconf2 : ss2.conformant = true)
    {i : Nat} (hi : i < ss1.attributes.length) (value : String) :
    ss1.attribute_entropy (AttrRef.byIndex i) value
      = ss2.attribute_entropy (AttrRef.byIndex i) value := by
  have hlen1 : ∀ x ∈ ss1.samples, i < x.values.length := by
    intro x hx
    have := conformant_length hconf1 x hx
    omega
  have hlen2 : ∀ x ∈ ss2.samples, i < x.values.length := by
    intro x hx
    have := conformant_length hconf2 x hx
    rw [← ha] at this
    omega
  simp only [SampleSet.attribute_entropy, AttrRef.resolve, ok_bind]
  rw [attrClassCounts_char value hnd hlen1 (conformant_result hconf1),
    attrClassCounts_char value (hc ▸ hnd) hlen2 (conformant_result hconf2)]
  have heq : (ss1.samples.countP (fun x => decide (keyAt i x = value)),
        ss1.classes.map (fun cl => (cl, ss1.samples.countP
          (fun x => decide (keyAt i x = value ∧ x.result = cl)))))
      = (ss2.samples.countP (fun x => decide (keyAt i x = value)),
        ss2.classes.map (fun cl => (cl, ss2.samples.countP
          (fun x => decide (keyAt i x = value ∧ x.result = cl))))) := by
    rw [← hc, hp.countP_eq]
    congr 1
    apply List.map_congr_left
    intro cl _
    rw [hp.countP_eq]
  rw [heq]

/-- C7: for two SampleSets with the same attributes and the same
(duplicate-free) classes, schema-conformant sample collections that are
permutations of each other, `entropy()` agrees on both, and `gain` agrees
on both for every declared attribute name (attribute value tuples being
duplicate-free, per the data model). -/
theorem C7_insertion_order_independent
    (ss1 ss2 : SampleSet)
    (ha : ss1.attributes = ss2.attributes)
    (hc : ss1.classes = ss2.classes)
    (hp : ss1.samples.Perm ss2.samples)
    (hconf : ss1.conformant = true)
    (hnd : ss1.classes.Nodup)
    (hvnd : ∀ a ∈ ss1.attributes, a.values.Nodup) :
    ss1.entropy = ss2.entropy ∧
      ∀ nm ∈ ss1.attributes.map Attribute.name, ss1.gain nm = ss2.gain nm := by
  have hconf2 : ss2.conformant = true := conformant_perm ha hc hp hconf
  have hE : ss1.entropy = ss2.entropy :=
    entropy_perm hc hp hnd (conformant_result hconf) (conformant_result hconf2)
  refine ⟨hE, ?_⟩
  intro nm _
  have hidx : ss1.index_of_attribute nm = ss2.index_of_attribute nm := by
    rw [SampleSet.index_of_attribute, SampleSet.index_of_attribute, ha]
  rw [SampleSet.gain, SampleSet.gain, hE, hidx]
  cases hEv : ss2.entropy with
  | error e => rfl
  | ok g0 =>
    simp only [ok_bind]
    cases hIv : ss2.index_of_attribute nm with
    | error e => rfl
    | ok i =>
      simp only [ok_bind]
      have hi2 : i < ss2.attributes.length := (index_of_attribute_ok hIv).1
      have hi1 : i < ss1.attributes.length := by rw [ha]; exact hi2
      have hnv : (ss1.attributes.getD i ⟨"", []⟩).values.Nodup :=
        hvnd _ (getD_mem hi1)
      have hlen1 : ∀ x ∈ ss1.samples, i < x.values.length := by
        intro x hx
        have := conformant_length hconf x hx
        omega
      have hlen2 : ∀ x ∈ ss2.samples, i < x.values.length := by
        intro x hx
        have := conformant_length hconf2 x hx
        rw [← ha] at this
        omega
      have hVC1 : ss1.valueCounts i = Except.ok
          ((ss1.attributes.getD i ⟨"", []⟩).values.map (fun v =>
            (v, ss1.samples.countP (fun x => decide (keyAt i x = v))))) :=
        valueCounts_char hi1 rfl hnv hlen1
          (fun x hx => conformant_value hconf x hx i hi1)
      have hVC2 : ss2.valueCounts i = Except.ok
          ((ss1.attributes.getD i ⟨"", []⟩).values.map (fun v =>
            (v, ss1.samples.countP (fun x => decide (keyAt i x = v))))) := by
        have hval2 : ∀ x ∈ ss2.samples, keyAt i x ∈
            (ss2.attributes.getD i ⟨"", []⟩).values := by
          intro x hx
          exact conformant_value hconf2 x hx i hi2
        have hval2b : ∀ x ∈ ss2.samples, keyAt i x ∈
            (ss1.attributes.getD i ⟨"", []⟩).values := by
          intro x hx
          have h2 := hval2 x hx
          rwa [← ha] at h2
        rw [valueCounts_char hi2 rfl (by rw [← ha]; exact hnv) hlen2 hval2]
        rw [← ha]
        congr 1
        apply List.map_congr_left
        intro v _
        rw [hp.countP_eq]
      rw [hVC1, hVC2]
      simp only [ok_bind]
      rw [hp.length_eq]
      apply foldlM_congr
      intro g kv _
      rw [gainStep, gainStep]
      by_cases hzero : ss2.samples.length = 0
      · rw [if_pos hzero, if_pos hzero]
      · rw [if_neg hzero, if_neg hzero,
          attribute_entropy_perm ha hc hp hnd hconf hconf2 hi1 kv.1]

/-- C7 witness: two concrete two-sample sets whose samples are appended in
opposite orders agree on `entropy()` and on `gain` for the declared name. -/
theorem C7_insertion_order_witness :
    ((SampleSet.mk [⟨"a", ["x", "y"]⟩] ["yes", "no"]
        [⟨"yes", ["x"]⟩, ⟨"no", ["y"]⟩]).attributes
      = (SampleSet.mk [⟨"a", ["x", "y"]⟩] ["yes", "no"]
        [⟨"no", ["y"]⟩, ⟨"yes", ["x"]⟩]).attributes) ∧
    ((SampleSet.mk [⟨"a", ["x", "y"]⟩] ["yes", "no"]
        [⟨"yes", ["x"]⟩, ⟨"no", ["y"]⟩]).samples.Perm
      (SampleSet.mk [⟨"a", ["x", "y"]⟩] ["yes", "no"]
        [⟨"no", ["y"]⟩, ⟨"yes", ["x"]⟩]).samples) ∧
    ((SampleSet.mk [⟨"a", ["x", "y"]⟩] ["yes", "no"]
        [⟨"yes", ["x"]⟩, ⟨"no", ["y"]⟩]).entropy
      = (SampleSet.mk [⟨"a", ["x", "y"]⟩] ["yes", "no"]
        [⟨"no", ["y"]⟩, ⟨"yes", ["x"]⟩]).entropy ∧
      ∀ nm ∈ (SampleSet.mk [⟨"a", ["x", "y"]⟩] ["yes", "no"]
          [⟨"yes", ["x"]⟩, ⟨"no", ["y"]⟩]).attributes.map Attribute.name,
        (SampleSet.mk [⟨"a", ["x", "y"]⟩] ["yes", "no"]
          [⟨"yes", ["x"]⟩, ⟨"no", ["y"]⟩]).gain nm
        = (SampleSet.mk [⟨"a", ["x", "y"]⟩] ["yes", "no"]
          [⟨"no", ["y"]⟩, ⟨"yes", ["x"]⟩]).gain nm) :=
  ⟨rfl, by decide,
   C7_insertion_order_independent _ _ rfl rfl (by decide) (by decide) (by decide)
     (by decide)⟩

end AiEntropy

namespace AiEntropy

/-- The filtering loop of `attribute_gain` builds exactly the filtered list. -/
lemma foldlM_filter_append {i : Nat} {value : String} (l : List Sample)
    (hlen : ∀ x ∈ l, i < x.values.length) :
    ∀ acc : List Sample,
      l.foldlM (fun acc x => do
          let v ← pyIndex x.values i
          if v = value then pure (acc ++ [x]) else pure acc) acc
        = Except.ok (acc ++ l.filter (fun x => decide (keyAt i x = value))) := by
  induction l with
  | nil => intro acc; simp; rfl
  | cons x xs ih =>
    intro acc
    have hxl : i < x.values.length := hlen x (List.mem_cons_self x xs)
    simp only [List.foldlM_cons, pyIndex_ok hxl, ok_bind]
    rw [show x.values.getD i "" = keyAt i x from rfl]
    by_cases hv : keyAt i x = value
    · rw [if_pos hv, pure_bind, ih (fun y hy => hlen y (List.mem_cons_of_mem x hy)),
        List.filter_cons_of_pos (by simpa using hv)]
      simp
    · rw [if_neg hv, pure_bind, ih (fun y hy => hlen y (List.mem_cons_of_mem x hy)),
        List.filter_cons_of_neg (by simpa using hv)]

lemma matchingSamples_char {ss : SampleSet} {i : Nat} (value : String)
    (hlen : ∀ x ∈ ss.samples, i < x.values.length) :
    ss.matchingSamples i value
      = Except.ok (ss.samples.filter (fun x => decide (keyAt i x = value))) := by
  rw [SampleSet.matchingSamples, foldlM_filter_append ss.samples hlen []]
  rfl

/-- The shared-bucket loop appends every sample of the subset to the one
shared list (and raises no `KeyError` when all values are declared). -/
lemma catsAppendAll_char {i : Nat} {keys : List String} (l : List Sample)
    (hlen : ∀ x ∈ l, i < x.values.length)
    (hmem : ∀ x ∈ l, keyAt i x ∈ keys) :
    catsAppendAll i keys l = Except.ok l := by
  rw [catsAppendAll]
  suffices h : ∀ acc : List Sample,
      l.foldlM (fun shared s => do
          let v ← pyIndex s.values i
          if keys.contains v then pure (shared ++ [s])
          else Except.error (PyErr.keyError v)) acc = Except.ok (acc ++ l) by
    rw [h []]
    rfl
  induction l with
  | nil => intro acc; simp; rfl
  | cons x xs ih =>
    intro acc
    have hxl : i < x.values.length := hlen x (List.mem_cons_self x xs)
    simp only [List.foldlM_cons, pyIndex_ok hxl, ok_bind]
    rw [show x.values.getD i "" = keyAt i x from rfl,
      if_pos (by simpa using hmem x (List.mem_cons_self x xs)), pure_bind,
      ih (fun y hy => hlen y (List.mem_cons_of_mem x hy))
        (fun y hy => hmem y (List.mem_cons_of_mem x hy)) (acc ++ [x])]
    simp

/-- The per-key class-count loop of `attribute_gain`'s tabulation. -/
lemma condCountFold (i : Nat) (k : String) (l : List Sample) :
    ∀ (m : List (String × Nat)), (m.map Prod.fst).Nodup →
      (∀ x ∈ l, i < x.values.length) →
      (∀ x ∈ l, x.result ∈ m.map Prod.fst) →
      l.foldlM (fun m2 sample => do
          let v ← pyIndex sample.values i
          if v = k then dictIncr m2 sample.result else pure m2) m
        = Except.ok (m.map (fun kv => (kv.1, kv.2 +
            l.countP (fun x => decide (keyAt i x = k ∧ x.result = kv.1))))) := by
  induction l with
  | nil =>
    intro m _ _ _
    simp only [List.foldlM_nil, List.countP_nil, Nat.add_zero, Prod.mk.eta]
    rw [List.map_id']
    rfl
  | cons x xs ih =>
    intro m hnd hlen hres
    have hxl : i < x.values.length := hlen x (List.mem_cons_self x xs)
    have hxr : x.result ∈ m.map Prod.fst := hres x (List.mem_cons_self x xs)
    simp only [List.foldlM_cons, pyIndex_ok hxl, ok_bind]
    rw [show x.values.getD i "" = keyAt i x from rfl]
    by_cases hv : keyAt i x = k
    · rw [if_pos hv, dictIncr_ok hnd hxr]
      simp only [ok_bind]
      rw [ih _ (by rw [bump_fst]; exact hnd)
          (fun y hy => hlen y (List.mem_cons_of_mem x hy))
          (fun y hy => by rw [bump_fst]; exact hres y (List.mem_cons_of_mem x hy)),
        List.map_map]
      congr 1
      apply List.map_congr_left
      intro kv _
      simp only [Function.comp_apply]
      by_cases hEq : kv.1 = x.result
      · rw [if_pos hEq, countP_cons_pos _ (decide_eq_true ⟨hv, hEq.symm⟩)]
        simp only [Prod.mk.injEq, true_and]
        omega
      · rw [if_neg hEq, countP_cons_neg _ (decide_eq_false
          (show ¬(keyAt i x = k ∧ x.result = kv.1) from fun hcon => hEq hcon.2.symm))]
    · rw [if_neg hv]
      simp only [pure_bind]
      rw [ih m hnd (fun y hy => hlen y (List.mem_cons_of_mem x hy))
          (fun y hy => hres y (List.mem_cons_of_mem x hy))]
      congr 1
      apply List.map_congr_left
      intro kv _
      rw [countP_cons_neg _ (decide_eq_false
        (show ¬(keyAt i x = k ∧ x.result = kv.1) from fun hcon => hv hcon.1))]

/-- The tabulation loop of `attribute_gain`, fully characterized. -/
lemma catsResults_char {ss : SampleSet} {i : Nat} {shared : List Sample}
    (hnd : ss.classes.Nodup)
    (hlen : ∀ x ∈ shared, i < x.values.length)
    (hres : ∀ x ∈ shared, x.result ∈ ss.classes) (keys : List String) :
    ss.catsResults i shared keys = Except.ok (keys.map (fun k =>
      (k, ss.classes.map (fun cl => (cl, shared.countP
        (fun x => decide (keyAt i x = k ∧ x.result = cl))))))) := by
  rw [SampleSet.catsResults]
  suffices h : ∀ acc : List (String × List (String × Nat)),
      keys.foldlM (fun res k => do
          let s ← shared.foldlM (fun m sample => do
              let v ← pyIndex sample.values i
              if v = k then dictIncr m sample.result else pure m) (dictFromKeys ss.classes)
          pure (res ++ [(k, s)])) acc
        = Except.ok (acc ++ keys.map (fun k =>
            (k, ss.classes.map (fun cl => (cl, shared.countP
              (fun x => decide (keyAt i x = k ∧ x.result = cl))))))) by
    rw [h []]
    rfl
  induction keys with
  | nil => intro acc; simp; rfl
  | cons k ks ih =>
    intro acc
    simp only [List.foldlM_cons]
    rw [condCountFold i k shared (dictFromKeys ss.classes)
        (by rw [dictFromKeys_fst]; exact hnd) hlen
        (fun x hx => by rw [dictFromKeys_fst]; exact hres x hx)]
    simp only [ok_bind, pure_bind]
    rw [ih (acc ++ [(k, (dictFromKeys ss.classes).map (fun kv => (kv.1, kv.2 +
      shared.countP (fun x => decide (keyAt i x = k ∧ x.result = kv.1)))))])]
    simp only [List.map_cons, List.append_assoc, List.singleton_append, dictFromKeys,
      List.map_map]
    congr 3
    congr 1
    apply List.map_congr_left
    intro cl _
    simp [Function.comp]

/-- Subtracting loop as a sum. -/
lemma foldl_sub {α : Type} (f : α → ℝ) (l : List α) :
    ∀ g0 : ℝ, l.foldl (fun g x => g - f x) g0 = g0 - (l.map f).sum := by
  induction l with
  | nil => intro g0; simp
  | cons x xs ih =>
    intro g0
    simp only [List.foldl_cons, List.map_cons, List.sum_cons, ih]
    ring

/-- A monadic fold whose steps all succeed is the pure fold. -/
lemma foldlM_pure_ok {α : Type} {F : ℝ → α → Except PyErr ℝ} {G : ℝ → α → ℝ}
    (l : List α) (h : ∀ e x, x ∈ l → F e x = Except.ok (G e x)) :
    ∀ e0 : ℝ, l.foldlM F e0 = Except.ok (l.foldl G e0) := by
  induction l with
  | nil => intro e0; rfl
  | cons x xs ih =>
    intro e0
    simp only [List.foldlM_cons, List.foldl_cons, h e0 x (List.mem_cons_self x xs), ok_bind]
    exact ih (fun e y hy => h e y (List.mem_cons_of_mem x hy)) (G e0 x)

end AiEntropy

namespace AiEntropy

lemma sum_map_zero (L : List String) : (L.map (fun _ => (0 : ℕ))).sum = 0 := by
  induction L with
  | nil => rfl
  | cons c cs ih => simp only [List.map_cons, List.sum_cons, ih, Nat.add_zero]

lemma sum_map_add (L : List String) (f g : String → ℕ) :
    (L.map (fun c => f c + g c)).sum = (L.map f).sum + (L.map g).sum := by
  induction L with
  | nil => rfl
  | cons c cs ih =>
    simp only [List.map_cons, List.sum_cons, ih]
    omega

lemma sum_indicator_zero (L : List String) (r : String) (hr : r ∉ L) :
    (L.map (fun c => if r = c then (1 : ℕ) else 0)).sum = 0 := by
  induction L with
  | nil => rfl
  | cons c cs ih =>
    simp only [List.mem_cons, not_or] at hr
    simp only [List.map_cons, List.sum_cons, if_neg hr.1, ih hr.2]

lemma sum_indicator (L : List String) (hnd : L.Nodup) (r : String) (hr : r ∈ L) :
    (L.map (fun c => if r = c then (1 : ℕ) else 0)).sum = 1 := by
  induction L with
  | nil => simp at hr
  | cons c cs ih =>
    simp only [List.nodup_cons] at hnd
    simp only [List.map_cons, List.sum_cons]
    by_cases hEq : r = c
    · rw [if_pos hEq, sum_indicator_zero cs r (hEq ▸ hnd.1)]
    · rcases List.mem_cons.mp hr with h | h
      · exact absurd h hEq
      · rw [if_neg hEq, ih hnd.2 h]

/-- Summing the per-class counts of a partition recovers its size. -/
lemma sum_countP_partition {i : Nat} {k : String} (classes : List String)
    (hnd : classes.Nodup) (l : List Sample)
    (hres : ∀ x ∈ l, x.result ∈ classes) :
    (classes.map (fun cl => l.countP
        (fun x => decide (keyAt i x = k ∧ x.result = cl)))).sum
      = l.countP (fun x => decide (keyAt i x = k)) := by
  induction l with
  | nil =>
    simp only [List.countP_nil]
    exact sum_map_zero classes
  | cons x xs ih =>
    have ihx := ih (fun y hy => hres y (List.mem_cons_of_mem x hy))
    by_cases hk : keyAt i x = k
    · have hmap : classes.map (fun cl => (x :: xs).countP
          (fun y => decide (keyAt i y = k ∧ y.result = cl)))
          = classes.map (fun cl => xs.countP
              (fun y => decide (keyAt i y = k ∧ y.result = cl))
            + if x.result = cl then 1 else 0) := by
        apply List.map_congr_left
        intro cl _
        by_cases hEq : x.result = cl
        · rw [countP_cons_pos _ (decide_eq_true ⟨hk, hEq⟩), if_pos hEq]
        · rw [countP_cons_neg _ (decide_eq_false
            (show ¬(keyAt i x = k ∧ x.result = cl) from fun hcon => hEq hcon.2)),
            if_neg hEq, Nat.add_zero]
      rw [hmap, sum_map_add, ihx,
        sum_indicator classes hnd x.result (hres x (List.mem_cons_self x xs)),
        countP_cons_pos _ (decide_eq_true hk)]
    · have hmap : classes.map (fun cl => (x :: xs).countP
          (fun y => decide (keyAt i y = k ∧ y.result = cl)))
          = classes.map (fun cl => xs.countP
              (fun y => decide (keyAt i y = k ∧ y.result = cl))) := by
        apply List.map_congr_left
        intro cl _
        rw [countP_cons_neg _ (decide_eq_false
          (show ¬(keyAt i x = k ∧ x.result = cl) from fun hcon => hk hcon.1))]
      rw [hmap, ihx, countP_cons_neg _ (decide_eq_false hk)]

/-- `attribute_entropy` (by index) succeeds with the pure entropy loop value
whenever at least one sample matches the value. -/
lemma attribute_entropy_ok {ss : SampleSet} {i : Nat} {value : String}
    (hnd : ss.classes.Nodup)
    (hlen : ∀ x ∈ ss.samples, i < x.values.length)
    (hres : ∀ x ∈ ss.samples, x.result ∈ ss.classes)
    (hc : ss.samples.countP (fun x => decide (keyAt i x = value)) ≠ 0) :
    ss.attribute_entropy (AttrRef.byIndex i) value = Except.ok
      ((ss.classes.map (fun cl => (cl, ss.samples.countP
          (fun x => decide (keyAt i x = value ∧ x.result = cl))))).foldl
        (entStepP (ss.samples.countP (fun x => decide (keyAt i x = value)))) 0) := by
  simp only [SampleSet.attribute_entropy, AttrRef.resolve, ok_bind]
  rw [attrClassCounts_char value hnd hlen hres]
  simp only [ok_bind]
  exact foldlM_entStep_ok hc _ 0

end AiEntropy

namespace AiEntropy

/-- `info_function` succeeds with the pure loop value on positive totals. -/
lemma info_function_ok {l : List ℕ} (h : l.sum ≠ 0) :
    info_function l = Except.ok (infoVal l) := by
  have hne : l.isEmpty = false := by
    cases l with
    | nil => exact absurd rfl h
    | cons v vs => rfl
  rw [info_function, hne, if_neg (by simp), if_neg h]

/-- Class counts over a filtered partition, as counts of the conjunction. -/
lemma countP_filter_result (S : List Sample) (i2 : Nat) (v2 cl : String) :
    (S.filter (fun x => decide (keyAt i2 x = v2))).countP
        (fun x => decide (x.result = cl))
      = S.countP (fun x => decide (keyAt i2 x = v2 ∧ x.result = cl)) := by
  rw [List.countP_filter]
  congr 1
  funext x
  simp [Bool.and_comm]

/-- C10: with every legal value of `attr2` occurring at least once inside the
`attr1 == value` subset (and a valid, conformant configuration),
`attribute_gain` returns exactly `attribute_entropy(attr1, value)` minus the
weighted information values of the per-value partitions — the aliasing of
`dict.fromkeys(..., [])` (modelled faithfully: one shared bucket holding the
whole subset) does not affect the numbers, because the tabulation re-filters
the shared bucket by each bucket's value; and `info_function` succeeds on
each partition's class counts. -/
theorem C10_attribute_gain_formula
    (ss : SampleSet) (attr1 value attr2 : String) (i1 i2 : Nat)
    (h1 : ss.index_of_attribute attr1 = Except.ok i1)
    (h2 : ss.index_of_attribute attr2 = Except.ok i2)
    (hconf : ss.conformant = true)
    (hnd : ss.classes.Nodup)
    (_hvnd : (ss.attributes.getD i2 ⟨"", []⟩).values.Nodup)
    (hne : ss.samples.filter (fun x => decide (keyAt i1 x = value)) ≠ [])
    (hocc : ∀ v2 ∈ (ss.attributes.getD i2 ⟨"", []⟩).values,
      (ss.samples.filter (fun x => decide (keyAt i1 x = value))).countP
        (fun x => decide (keyAt i2 x = v2)) ≠ 0) :
    ∃ e1, ss.attribute_entropy (AttrRef.byIndex i1) value = Except.ok e1 ∧
      (∀ v2 ∈ (ss.attributes.getD i2 ⟨"", []⟩).values,
        info_function (ss.classes.map (fun cl =>
          ((ss.samples.filter (fun x => decide (keyAt i1 x = value))).filter
            (fun x => decide (keyAt i2 x = v2))).countP
            (fun x => decide (x.result = cl))))
          = Except.ok (infoVal (ss.classes.map (fun cl =>
            ((ss.samples.filter (fun x => decide (keyAt i1 x = value))).filter
              (fun x => decide (keyAt i2 x = v2))).countP
              (fun x => decide (x.result = cl)))))) ∧
      ss.attribute_gain attr1 value attr2 = Except.ok (e1 -
        ((ss.attributes.getD i2 ⟨"", []⟩).values.map (fun v2 =>
          ((((ss.samples.filter (fun x => decide (keyAt i1 x = value))).filter
              (fun x => decide (keyAt i2 x = v2))).length : ℝ) /
            ((ss.samples.filter (fun x => decide (keyAt i1 x = value))).length : ℝ)) *
          infoVal (ss.classes.map (fun cl =>
            ((ss.samples.filter (fun x => decide (keyAt i1 x = value))).filter
              (fun x => decide (keyAt i2 x = v2))).countP
              (fun x => decide (x.result = cl)))))).sum) := by
  have hi1 : i1 < ss.attributes.length := (index_of_attribute_ok h1).1
  have hi2 : i2 < ss.attributes.length := (index_of_attribute_ok h2).1
  have hlen1 : ∀ x ∈ ss.samples, i1 < x.values.length := by
    intro x hx
    have := conformant_length hconf x hx
    omega
  have hlen2 : ∀ x ∈ ss.samples, i2 < x.values.length := by
    intro x hx
    have := conformant_length hconf x hx
    omega
  have hres := conformant_result hconf
  have hcnt : ss.samples.countP (fun x => decide (keyAt i1 x = value))
      = (ss.samples.filter (fun x => decide (keyAt i1 x = value))).length :=
    List.countP_eq_length_filter _ ss.samples
  have hcne : ss.samples.countP (fun x => decide (keyAt i1 x = value)) ≠ 0 := by
    rw [hcnt]
    exact fun h => hne (List.length_eq_zero.mp h)
  have hSlen : (ss.samples.filter (fun x => decide (keyAt i1 x = value))).length ≠ 0 :=
    hcnt ▸ hcne
  have hSsub : ∀ x ∈ ss.samples.filter (fun x => decide (keyAt i1 x = value)),
      x ∈ ss.samples := fun x hx => List.mem_of_mem_filter hx
  have hSlen2 : ∀ x ∈ ss.samples.filter (fun x => decide (keyAt i1 x = value)),
      i2 < x.values.length := fun x hx => hlen2 x (hSsub x hx)
  have hSres : ∀ x ∈ ss.samples.filter (fun x => decide (keyAt i1 x = value)),
      x.result ∈ ss.classes := fun x hx => hres x (hSsub x hx)
  -- the class-count list of the partition at a value v2, and its total
  have hsum : ∀ v2, (ss.classes.map (fun cl =>
      ((ss.samples.filter (fun x => decide (keyAt i1 x = value))).filter
        (fun x => decide (keyAt i2 x = v2))).countP
        (fun x => decide (x.result = cl)))).sum
      = (ss.samples.filter (fun x => decide (keyAt i1 x = value))).countP
          (fun x => decide (keyAt i2 x = v2)) := by
    intro v2
    have hmapc : (ss.classes.map (fun cl =>
        ((ss.samples.filter (fun x => decide (keyAt i1 x = value))).filter
          (fun x => decide (keyAt i2 x = v2))).countP
          (fun x => decide (x.result = cl))))
        = (ss.classes.map (fun cl =>
          (ss.samples.filter (fun x => decide (keyAt i1 x = value))).countP
            (fun x => decide (keyAt i2 x = v2 ∧ x.result = cl)))) := by
      apply List.map_congr_left
      intro cl _
      exact countP_filter_result _ i2 v2 cl
    rw [hmapc, sum_countP_partition ss.classes hnd _ hSres]
  have hinfo : ∀ v2 ∈ (ss.attributes.getD i2 ⟨"", []⟩).values,
      info_function (ss.classes.map (fun cl =>
        ((ss.samples.filter (fun x => decide (keyAt i1 x = value))).filter
          (fun x => decide (keyAt i2 x = v2))).countP
          (fun x => decide (x.result = cl))))
        = Except.ok (infoVal (ss.classes.map (fun cl =>
          ((ss.samples.filter (fun x => decide (keyAt i1 x = value))).filter
            (fun x => decide (keyAt i2 x = v2))).countP
            (fun x => decide (x.result = cl))))) := by
    intro v2 hv2
    apply info_function_ok
    rw [hsum v2]
    exact hocc v2 hv2
  refine ⟨_, attribute_entropy_ok hnd hlen1 hres hcne, hinfo, ?_⟩
  rw [SampleSet.attribute_gain, h1]
  simp only [ok_bind]
  rw [h2]
  simp only [ok_bind]
  rw [attribute_entropy_ok hnd hlen1 hres hcne]
  simp only [ok_bind]
  rw [matchingSamples_char value hlen1]
  simp only [ok_bind]
  rw [pyIndexA_ok hi2]
  simp only [ok_bind]
  rw [catsAppendAll_char _ hSlen2
    (fun x hx => conformant_value hconf x (hSsub x hx) i2 hi2)]
  simp only [ok_bind]
  rw [catsResults_char hnd hSlen2 hSres]
  simp only [ok_bind]
  rw [foldlM_pure_ok (G := fun g kx => g -
      (((kx.2.map Prod.snd).sum : ℝ) /
        ((ss.samples.filter (fun x => decide (keyAt i1 x = value))).length : ℝ)) *
      infoVal (kx.2.map Prod.snd)) _ ?_]
  · rw [foldl_sub, List.map_map]
    congr 2
    congr 1
    apply List.map_congr_left
    intro v2 hv2
    simp only [Function.comp_apply, List.map_map]
    have hsnd : (ss.classes.map ((fun kv => kv.2) ∘ (fun cl =>
        (cl, ((ss.samples.filter (fun x => decide (keyAt i1 x = value))).countP
          (fun x => decide (keyAt i2 x = v2 ∧ x.result = cl)))))))
        = (ss.classes.map (fun cl =>
          ((ss.samples.filter (fun x => decide (keyAt i1 x = value))).filter
            (fun x => decide (keyAt i2 x = v2))).countP
            (fun x => decide (x.result = cl)))) := by
      apply List.map_congr_left
      intro cl _
      simp only [Function.comp_apply]
      exact (countP_filter_result _ i2 v2 cl).symm
    rw [hsnd, hsum v2, List.countP_eq_length_filter]
  · intro e kx hkx
    obtain ⟨v2, hv2, hkxe⟩ := List.mem_map.mp hkx
    subst hkxe
    rw [agStep]
    simp only
    rw [if_neg hSlen, List.map_map]
    have hsnd : (ss.classes.map ((fun kv => kv.2) ∘ (fun cl =>
        (cl, ((ss.samples.filter (fun x => decide (keyAt i1 x = value))).countP
          (fun x => decide (keyAt i2 x = v2 ∧ x.result = cl)))))))
        = (ss.classes.map (fun cl =>
          ((ss.samples.filter (fun x => decide (keyAt i1 x = value))).filter
            (fun x => decide (keyAt i2 x = v2))).countP
            (fun x => decide (x.result = cl)))) := by
      apply List.map_congr_left
      intro cl _
      simp only [Function.comp_apply]
      exact (countP_filter_result _ i2 v2 cl).symm
    rw [hsnd, hinfo v2 hv2]
    rfl

end AiEntropy

namespace AiEntropy

/-- Concrete configuration exercising `attribute_gain` with every declared
value of the second attribute occurring inside the filtered subset. -/
def ssC10 : SampleSet :=
  ⟨[⟨"a", ["x", "y"]⟩, ⟨"b", ["u", "v"]⟩], ["yes", "no"],
    [⟨"yes", ["x", "u"]⟩, ⟨"no", ["x", "v"]⟩, ⟨"yes", ["y", "u"]⟩]⟩

/-- C10 witness: the formula applied at a concrete conformant input. -/
theorem C10_attribute_gain_formula_witness :
    (ssC10.index_of_attribute "a" = Except.ok 0 ∧
     ssC10.index_of_attribute "b" = Except.ok 1 ∧
     ssC10.conformant = true ∧
     ssC10.classes.Nodup ∧
     (ssC10.attributes.getD 1 ⟨"", []⟩).values.Nodup ∧
     ssC10.samples.filter (fun x => decide (keyAt 0 x = "x")) ≠ [] ∧
     (∀ v2 ∈ (ssC10.attributes.getD 1 ⟨"", []⟩).values,
       (ssC10.samples.filter (fun x => decide (keyAt 0 x = "x"))).countP
         (fun x => decide (keyAt 1 x = v2)) ≠ 0)) ∧
    (∃ e1, ssC10.attribute_entropy (AttrRef.byIndex 0) "x" = Except.ok e1 ∧
      (∀ v2 ∈ (ssC10.attributes.getD 1 ⟨"", []⟩).values,
        info_function (ssC10.classes.map (fun cl =>
          ((ssC10.samples.filter (fun x => decide (keyAt 0 x = "x"))).filter
            (fun x => decide (keyAt 1 x = v2))).countP
            (fun x => decide (x.result = cl))))
          = Except.ok (infoVal (ssC10.classes.map (fun cl =>
            ((ssC10.samples.filter (fun x => decide (keyAt 0 x = "x"))).filter
              (fun x => decide (keyAt 1 x = v2))).countP
              (fun x => decide (x.result = cl)))))) ∧
      ssC10.attribute_gain "a" "x" "b" = Except.ok (e1 -
        ((ssC10.attributes.getD 1 ⟨"", []⟩).values.map (fun v2 =>
          ((((ssC10.samples.filter (fun x => decide (keyAt 0 x = "x"))).filter
              (fun x => decide (keyAt 1 x = v2))).length : ℝ) /
            ((ssC10.samples.filter (fun x => decide (keyAt 0 x = "x"))).length : ℝ)) *
          infoVal (ssC10.classes.map (fun cl =>
            ((ssC10.samples.filter (fun x => decide (keyAt 0 x = "x"))).filter
              (fun x => decide (keyAt 1 x = v2))).countP
              (fun x => decide (x.result = cl)))))).sum)) :=
  ⟨⟨rfl, rfl, by decide, by decide, by decide, by decide, by decide⟩,
   C10_attribute_gain_formula ssC10 "a" "x" "b" 0 1 rfl rfl (by decide) (by decide)
     (by decide) (by decide) (by decide)⟩

end AiEntropy

/-! ### Numeric bounds on the binary logarithms of 3, 5 and 7 -/

namespace AiEntropy


lemma log_three_halves_lb : (0.405465 : ℝ) ≤ Real.log (3 / 2) := by
  have h := Real.abs_log_sub_add_sum_range_le
    (show |(1 : ℝ)/3| < 1 by rw [abs_of_pos] <;> norm_num) 16
  rw [show (1 : ℝ) - 1/3 = ((3 : ℝ)/2)⁻¹ by norm_num, Real.log_inv, abs_le] at h
  have h2 := h.2
  rw [abs_of_pos (by norm_num : (0:ℝ) < 1/3)] at h2
  norm_num [Finset.sum_range_succ] at h2 ⊢
  linarith

lemma log_three_halves_ub : Real.log (3 / 2) ≤ (0.405466 : ℝ) := by
  have h := Real.abs_log_sub_add_sum_range_le
    (show |(1 : ℝ)/3| < 1 by rw [abs_of_pos] <;> norm_num) 16
  rw [show (1 : ℝ) - 1/3 = ((3 : ℝ)/2)⁻¹ by norm_num, Real.log_inv, abs_le] at h
  have h1 := h.1
  rw [abs_of_pos (by norm_num : (0:ℝ) < 1/3)] at h1
  norm_num [Finset.sum_range_succ] at h1 ⊢
  linarith





lemma log_five_fourths_lb : (0.223143 : ℝ) ≤ Real.log (5 / 4) := by
  have h := Real.abs_log_sub_add_sum_range_le
    (show |(1 : ℝ)/5| < 1 by rw [abs_of_pos] <;> norm_num) 10
  rw [show (1 : ℝ) - 1/5 = ((5 : ℝ)/4)⁻¹ by norm_num, Real.log_inv, abs_le] at h
  have h2 := h.2
  rw [abs_of_pos (by norm_num : (0:ℝ) < 1/5)] at h2
  norm_num [Finset.sum_range_succ] at h2 ⊢
  linarith

lemma log_five_fourths_ub : Real.log (5 / 4) ≤ (0.223144 : ℝ) := by
  have h := Real.abs_log_sub_add_sum_range_le
    (show |(1 : ℝ)/5| < 1 by rw [abs_of_pos] <;> norm_num) 10
  rw [show (1 : ℝ) - 1/5 = ((5 : ℝ)/4)⁻¹ by norm_num, Real.log_inv, abs_le] at h
  have h1 := h.1
  rw [abs_of_pos (by norm_num : (0:ℝ) < 1/5)] at h1
  norm_num [Finset.sum_range_succ] at h1 ⊢
  linarith

lemma log_eight_sevenths_lb : (0.133531 : ℝ) ≤ Real.log (8 / 7) := by
  have h := Real.abs_log_sub_add_sum_range_le
    (show |(1 : ℝ)/8| < 1 by rw [abs_of_pos] <;> norm_num) 8
  rw [show (1 : ℝ) - 1/8 = ((8 : ℝ)/7)⁻¹ by norm_num, Real.log_inv, abs_le] at h
  have h2 := h.2
  rw [abs_of_pos (by norm_num : (0:ℝ) < 1/8)] at h2
  norm_num [Finset.sum_range_succ] at h2 ⊢
  linarith

lemma log_eight_sevenths_ub : Real.log (8 / 7) ≤ (0.133532 : ℝ) := by
  have h := Real.abs_log_sub_add_sum_range_le
    (show |(1 : ℝ)/8| < 1 by rw [abs_of_pos] <;> norm_num) 8
  rw [show (1 : ℝ) - 1/8 = ((8 : ℝ)/7)⁻¹ by norm_num, Real.log_inv, abs_le] at h
  have h1 := h.1
  rw [abs_of_pos (by norm_num : (0:ℝ) < 1/8)] at h1
  norm_num [Finset.sum_range_succ] at h1 ⊢
  linarith

lemma log_three_eq : Real.log 3 = Real.log 2 + Real.log (3 / 2) := by
  rw [← Real.log_mul (by norm_num) (by norm_num)]
  norm_num

lemma log_five_eq : Real.log 5 = 2 * Real.log 2 + Real.log (5 / 4) := by
  rw [show (5 : ℝ) = 2 ^ (2 : ℕ) * (5 / 4) by norm_num,
    Real.log_mul (by norm_num) (by norm_num), Real.log_pow]
  norm_num

lemma log_seven_eq : Real.log 7 = 3 * Real.log 2 - Real.log (8 / 7) := by
  rw [show (7 : ℝ) = 2 ^ (3 : ℕ) / (8 / 7) by norm_num,
    Real.log_div (by norm_num) (by norm_num), Real.log_pow]
  norm_num

lemma logb3_lb : (1.584962 : ℝ) ≤ Real.logb 2 3 := by
  rw [Real.logb, le_div_iff₀ (Real.log_pos (by norm_num))]
  have h2u := Real.log_two_lt_d9
  linarith [log_three_eq, log_three_halves_lb]

lemma logb3_ub : Real.logb 2 3 ≤ (1.584965 : ℝ) := by
  rw [Real.logb, div_le_iff₀ (Real.log_pos (by norm_num))]
  have h2l := Real.log_two_gt_d9
  linarith [log_three_eq, log_three_halves_ub]

lemma logb5_lb : (2.321927 : ℝ) ≤ Real.logb 2 5 := by
  rw [Real.logb, le_div_iff₀ (Real.log_pos (by norm_num))]
  have h2u := Real.log_two_lt_d9
  linarith [log_five_eq, log_five_fourths_lb]

lemma logb5_ub : Real.logb 2 5 ≤ (2.32193 : ℝ) := by
  rw [Real.logb, div_le_iff₀ (Real.log_pos (by norm_num))]
  have h2l := Real.log_two_gt_d9
  linarith [log_five_eq, log_five_fourths_ub]

lemma logb7_lb : (2.807354 : ℝ) ≤ Real.logb 2 7 := by
  rw [Real.logb, le_div_iff₀ (Real.log_pos (by norm_num))]
  have h2l := Real.log_two_gt_d9
  linarith [log_seven_eq, log_eight_sevenths_ub]

lemma logb7_ub : Real.logb 2 7 ≤ (2.807356 : ℝ) := by
  rw [Real.logb, div_le_iff₀ (Real.log_pos (by norm_num))]
  have h2u := Real.log_two_lt_d9
  linarith [log_seven_eq, log_eight_sevenths_lb]



end AiEntropy

namespace AiEntropy

/-! ### Binary logarithms of the fractions appearing in the weather data -/

lemma lbA2 : Real.logb 2 (2 : ℝ) = 1 := Real.logb_self_eq_one (by norm_num)

lemma lbA4 : Real.logb 2 (4 : ℝ) = 2 := by
  rw [show (4 : ℝ) = 2 ^ (2 : ℕ) by norm_num, Real.logb_pow, lbA2]
  norm_num

lemma lbA6 : Real.logb 2 (6 : ℝ) = 1 + Real.logb 2 3 := by
  rw [show (6 : ℝ) = 2 * 3 by norm_num, Real.logb_mul (by norm_num) (by norm_num), lbA2]

lemma lbA8 : Real.logb 2 (8 : ℝ) = 3 := by
  rw [show (8 : ℝ) = 2 ^ (3 : ℕ) by norm_num, Real.logb_pow, lbA2]
  norm_num

lemma lbA9 : Real.logb 2 (9 : ℝ) = 2 * Real.logb 2 3 := by
  rw [show (9 : ℝ) = 3 ^ (2 : ℕ) by norm_num, Real.logb_pow]
  norm_num

lemma lbA14 : Real.logb 2 (14 : ℝ) = 1 + Real.logb 2 7 := by
  rw [show (14 : ℝ) = 2 * 7 by norm_num, Real.logb_mul (by norm_num) (by norm_num), lbA2]

lemma lb_9_14 : Real.logb 2 ((9 : ℝ) / 14) = 2 * Real.logb 2 3 - (1 + Real.logb 2 7) := by
  rw [Real.logb_div (by norm_num) (by norm_num), lbA9, lbA14]

lemma lb_5_14 : Real.logb 2 ((5 : ℝ) / 14) = Real.logb 2 5 - (1 + Real.logb 2 7) := by
  rw [Real.logb_div (by norm_num) (by norm_num), lbA14]

lemma lb_2_5 : Real.logb 2 ((2 : ℝ) / 5) = 1 - Real.logb 2 5 := by
  rw [Real.logb_div (by norm_num) (by norm_num), lbA2]

lemma lb_3_5 : Real.logb 2 ((3 : ℝ) / 5) = Real.logb 2 3 - Real.logb 2 5 := by
  rw [Real.logb_div (by norm_num) (by norm_num)]

lemma lb_4_4 : Real.logb 2 ((4 : ℝ) / 4) = 0 := by
  norm_num

lemma lb_2_4 : Real.logb 2 ((2 : ℝ) / 4) = -1 := by
  rw [Real.logb_div (by norm_num) (by norm_num), lbA2, lbA4]
  norm_num

lemma lb_4_6 : Real.logb 2 ((4 : ℝ) / 6) = 1 - Real.logb 2 3 := by
  rw [Real.logb_div (by norm_num) (by norm_num), lbA4, lbA6]
  ring

lemma lb_2_6 : Real.logb 2 ((2 : ℝ) / 6) = -Real.logb 2 3 := by
  rw [Real.logb_div (by norm_num) (by norm_num), lbA2, lbA6]
  ring

lemma lb_3_4 : Real.logb 2 ((3 : ℝ) / 4) = Real.logb 2 3 - 2 := by
  rw [Real.logb_div (by norm_num) (by norm_num), lbA4]

lemma lb_1_4 : Real.logb 2 ((1 : ℝ) / 4) = -2 := by
  rw [Real.logb_div (by norm_num) (by norm_num), Real.logb_one, lbA4]
  norm_num

lemma lb_3_7 : Real.logb 2 ((3 : ℝ) / 7) = Real.logb 2 3 - Real.logb 2 7 := by
  rw [Real.logb_div (by norm_num) (by norm_num)]

lemma lb_4_7 : Real.logb 2 ((4 : ℝ) / 7) = 2 - Real.logb 2 7 := by
  rw [Real.logb_div (by norm_num) (by norm_num), lbA4]

lemma lb_6_7 : Real.logb 2 ((6 : ℝ) / 7) = 1 + Real.logb 2 3 - Real.logb 2 7 := by
  rw [Real.logb_div (by norm_num) (by norm_num), lbA6]

lemma lb_1_7 : Real.logb 2 ((1 : ℝ) / 7) = -Real.logb 2 7 := by
  rw [Real.logb_div (by norm_num) (by norm_num), Real.logb_one]
  ring

lemma lb_6_8 : Real.logb 2 ((6 : ℝ) / 8) = Real.logb 2 3 - 2 := by
  rw [Real.logb_div (by norm_num) (by norm_num), lbA6, lbA8]
  ring

lemma lb_2_8 : Real.logb 2 ((2 : ℝ) / 8) = -2 := by
  rw [Real.logb_div (by norm_num) (by norm_num), lbA2, lbA8]
  norm_num

lemma lb_3_6 : Real.logb 2 ((3 : ℝ) / 6) = -1 := by
  rw [Real.logb_div (by norm_num) (by norm_num), lbA6]
  ring

end AiEntropy

/-! ### The canonical 14-sample weather dataset of the module docstring -/

namespace AiEntropy

def outlook : Attribute := ⟨"outlook", ["sunny", "overcast", "rain"]⟩

def temperature : Attribute := ⟨"temp", ["hot", "mild", "cool"]⟩

def humidity : Attribute := ⟨"humidity", ["high", "normal"]⟩

def wind : Attribute := ⟨"wind", ["weak", "strong"]⟩

/-- The example `SampleSet` of the module docstring (D1 to D14). -/
def sample_set : SampleSet :=
  ⟨[outlook, temperature, humidity, wind], ["yes", "no"],
    [⟨"no", ["sunny", "hot", "high", "weak"]⟩,
     ⟨"no", ["sunny", "hot", "high", "strong"]⟩,
     ⟨"yes", ["overcast", "hot", "high", "weak"]⟩,
     ⟨"yes", ["rain", "mild", "high", "weak"]⟩,
     ⟨"yes", ["rain", "cool", "normal", "weak"]⟩,
     ⟨"no", ["rain", "cool", "normal", "strong"]⟩,
     ⟨"yes", ["overcast", "cool", "normal", "strong"]⟩,
     ⟨"no", ["sunny", "mild", "high", "weak"]⟩,
     ⟨"yes", ["sunny", "cool", "normal", "weak"]⟩,
     ⟨"yes", ["rain", "mild", "normal", "weak"]⟩,
     ⟨"yes", ["sunny", "mild", "normal", "strong"]⟩,
     ⟨"yes", ["overcast", "mild", "high", "strong"]⟩,
     ⟨"yes", ["overcast", "hot", "normal", "weak"]⟩,
     ⟨"no", ["rain", "mild", "high", "strong"]⟩]⟩

lemma entStepP_pos {c v : Nat} {e : ℝ} {k : String}
    (hv : ((v : ℕ) : ℝ) / ((c : ℕ) : ℝ) ≠ 0) :
    entStepP c e (k, v) = e - ((v : ℝ) / (c : ℝ)) * Real.logb 2 ((v : ℝ) / (c : ℝ)) := by
  simp only [entStepP, if_pos hv]

lemma entStepP_zero {c v : Nat} {e : ℝ} {k : String}
    (hv : ((v : ℕ) : ℝ) / ((c : ℕ) : ℝ) = 0) :
    entStepP c e (k, v) = e := by
  simp [entStepP, hv]

/-- `entropy` of the weather dataset, evaluated symbolically. -/
lemma weather_entropy_val : sample_set.entropy = Except.ok
    (1 - (9 : ℝ)/7 * Real.logb 2 3 - (5 : ℝ)/14 * Real.logb 2 5 + Real.logb 2 7) := by
  have hcc : sample_set.classCounts = Except.ok [("yes", 9), ("no", 5)] := by rfl
  have hlen : sample_set.samples.length = 14 := rfl
  rw [SampleSet.entropy, hcc]
  simp only [ok_bind, hlen]
  rw [foldlM_entStep_ok (by norm_num : (14 : ℕ) ≠ 0)]
  simp only [List.foldl_cons, List.foldl_nil]
  rw [entStepP_pos (by norm_num), entStepP_pos (by norm_num)]
  congr 1
  push_cast
  rw [lb_9_14, lb_5_14]
  ring

end AiEntropy

namespace AiEntropy

lemma attr_entropy_eval {i : Nat} {value : String} {c y n : Nat}
    (hcc : sample_set.attrClassCounts i value = Except.ok (c, [("yes", y), ("no", n)]))
    (hc : c ≠ 0) :
    sample_set.attribute_entropy (AttrRef.byIndex i) value
      = Except.ok (entStepP c (entStepP c 0 ("yes", y)) ("no", n)) := by
  simp only [SampleSet.attribute_entropy, AttrRef.resolve, ok_bind]
  rw [hcc]
  simp only [ok_bind]
  rw [foldlM_entStep_ok hc]
  rfl

lemma H_sunny : sample_set.attribute_entropy (AttrRef.byIndex 0) "sunny"
    = Except.ok (-(2/5 : ℝ) - (3 : ℝ)/5 * Real.logb 2 3 + Real.logb 2 5) := by
  have hcc : sample_set.attrClassCounts 0 "sunny"
      = Except.ok (5, [("yes", 2), ("no", 3)]) := by rfl
  rw [attr_entropy_eval hcc (by norm_num)]
  rw [entStepP_pos (show ((3 : ℕ) : ℝ) / ((5 : ℕ) : ℝ) ≠ 0 by norm_num),
    entStepP_pos (show ((2 : ℕ) : ℝ) / ((5 : ℕ) : ℝ) ≠ 0 by norm_num)]
  congr 1
  push_cast
  rw [lb_2_5, lb_3_5]
  ring

lemma H_overcast : sample_set.attribute_entropy (AttrRef.byIndex 0) "overcast"
    = Except.ok ((0 : ℝ)) := by
  have hcc : sample_set.attrClassCounts 0 "overcast"
      = Except.ok (4, [("yes", 4), ("no", 0)]) := by rfl
  rw [attr_entropy_eval hcc (by norm_num)]
  rw [entStepP_zero (show ((0 : ℕ) : ℝ) / ((4 : ℕ) : ℝ) = 0 by norm_num),
    entStepP_pos (show ((4 : ℕ) : ℝ) / ((4 : ℕ) : ℝ) ≠ 0 by norm_num)]
  congr 1
  push_cast
  rw [lb_4_4]
  ring

lemma H_rain : sample_set.attribute_entropy (AttrRef.byIndex 0) "rain"
    = Except.ok (-(2/5 : ℝ) - (3 : ℝ)/5 * Real.logb 2 3 + Real.logb 2 5) := by
  have hcc : sample_set.attrClassCounts 0 "rain"
      = Except.ok (5, [("yes", 3), ("no", 2)]) := by rfl
  rw [attr_entropy_eval hcc (by norm_num)]
  rw [entStepP_pos (show ((2 : ℕ) : ℝ) / ((5 : ℕ) : ℝ) ≠ 0 by norm_num),
    entStepP_pos (show ((3 : ℕ) : ℝ) / ((5 : ℕ) : ℝ) ≠ 0 by norm_num)]
  congr 1
  push_cast
  rw [lb_3_5, lb_2_5]
  ring

lemma H_hot : sample_set.attribute_entropy (AttrRef.byIndex 1) "hot"
    = Except.ok ((1 : ℝ)) := by
  have hcc : sample_set.attrClassCounts 1 "hot"
      = Except.ok (4, [("yes", 2), ("no", 2)]) := by rfl
  rw [attr_entropy_eval hcc (by norm_num)]
  rw [entStepP_pos (show ((2 : ℕ) : ℝ) / ((4 : ℕ) : ℝ) ≠ 0 by norm_num),
    entStepP_pos (show ((2 : ℕ) : ℝ) / ((4 : ℕ) : ℝ) ≠ 0 by norm_num)]
  congr 1
  push_cast
  rw [lb_2_4]
  ring

lemma H_mild : sample_set.attribute_entropy (AttrRef.byIndex 1) "mild"
    = Except.ok (-(2/3 : ℝ) + Real.logb 2 3) := by
  have hcc : sample_set.attrClassCounts 1 "mild"
      = Except.ok (6, [("yes", 4), ("no", 2)]) := by rfl
  rw [attr_entropy_eval hcc (by norm_num)]
  rw [entStepP_pos (show ((2 : ℕ) : ℝ) / ((6 : ℕ) : ℝ) ≠ 0 by norm_num),
    entStepP_pos (show ((4 : ℕ) : ℝ) / ((6 : ℕ) : ℝ) ≠ 0 by norm_num)]
  congr 1
  push_cast
  rw [lb_4_6, lb_2_6]
  ring

lemma H_cool : sample_set.attribute_entropy (AttrRef.byIndex 1) "cool"
    = Except.ok ((2 : ℝ) - (3 : ℝ)/4 * Real.logb 2 3) := by
  have hcc : sample_set.attrClassCounts 1 "cool"
      = Except.ok (4, [("yes", 3), ("no", 1)]) := by rfl
  rw [attr_entropy_eval hcc (by norm_num)]
  rw [entStepP_pos (show ((1 : ℕ) : ℝ) / ((4 : ℕ) : ℝ) ≠ 0 by norm_num),
    entStepP_pos (show ((3 : ℕ) : ℝ) / ((4 : ℕ) : ℝ) ≠ 0 by norm_num)]
  congr 1
  push_cast
  rw [lb_3_4, lb_1_4]
  ring

lemma H_high : sample_set.attribute_entropy (AttrRef.byIndex 2) "high"
    = Except.ok (-(8/7 : ℝ) - (3 : ℝ)/7 * Real.logb 2 3 + Real.logb 2 7) := by
  have hcc : sample_set.attrClassCounts 2 "high"
      = Except.ok (7, [("yes", 3), ("no", 4)]) := by rfl
  rw [attr_entropy_eval hcc (by norm_num)]
  rw [entStepP_pos (show ((4 : ℕ) : ℝ) / ((7 : ℕ) : ℝ) ≠ 0 by norm_num),
    entStepP_pos (show ((3 : ℕ) : ℝ) / ((7 : ℕ) : ℝ) ≠ 0 by norm_num)]
  congr 1
  push_cast
  rw [lb_3_7, lb_4_7]
  ring

lemma H_normal : sample_set.attribute_entropy (AttrRef.byIndex 2) "normal"
    = Except.ok (-(6/7 : ℝ) - (6 : ℝ)/7 * Real.logb 2 3 + Real.logb 2 7) := by
  have hcc : sample_set.attrClassCounts 2 "normal"
      = Except.ok (7, [("yes", 6), ("no", 1)]) := by rfl
  rw [attr_entropy_eval hcc (by norm_num)]
  rw [entStepP_pos (show ((1 : ℕ) : ℝ) / ((7 : ℕ) : ℝ) ≠ 0 by norm_num),
    entStepP_pos (show ((6 : ℕ) : ℝ) / ((7 : ℕ) : ℝ) ≠ 0 by norm_num)]
  congr 1
  push_cast
  rw [lb_6_7, lb_1_7]
  ring

lemma H_weak : sample_set.attribute_entropy (AttrRef.byIndex 3) "weak"
    = Except.ok ((2 : ℝ) - (3 : ℝ)/4 * Real.logb 2 3) := by
  have hcc : sample_set.attrClassCounts 3 "weak"
      = Except.ok (8, [("yes", 6), ("no", 2)]) := by rfl
  rw [attr_entropy_eval hcc (by norm_num)]
  rw [entStepP_pos (show ((2 : ℕ) : ℝ) / ((8 : ℕ) : ℝ) ≠ 0 by norm_num),
    entStepP_pos (show ((6 : ℕ) : ℝ) / ((8 : ℕ) : ℝ) ≠ 0 by norm_num)]
  congr 1
  push_cast
  rw [lb_6_8, lb_2_8]
  ring

lemma H_strong : sample_set.attribute_entropy (AttrRef.byIndex 3) "strong"
    = Except.ok ((1 : ℝ)) := by
  have hcc : sample_set.attrClassCounts 3 "strong"
      = Except.ok (6, [("yes", 3), ("no", 3)]) := by rfl
  rw [attr_entropy_eval hcc (by norm_num)]
  rw [entStepP_pos (show ((3 : ℕ) : ℝ) / ((6 : ℕ) : ℝ) ≠ 0 by norm_num),
    entStepP_pos (show ((3 : ℕ) : ℝ) / ((6 : ℕ) : ℝ) ≠ 0 by norm_num)]
  congr 1
  push_cast
  rw [lb_3_6]
  ring

end AiEntropy

namespace AiEntropy

@[simp] lemma pure_eq_ok {α : Type} (a : α) : (pure a : Except PyErr α) = Except.ok a := rfl

lemma gainStep_eval {i c : Nat} {g e : ℝ} {k : String} {v : Nat}
    (hc : c ≠ 0)
    (hae : sample_set.attribute_entropy (AttrRef.byIndex i) k = Except.ok e) :
    gainStep sample_set i c g (k, v) = Except.ok (g - ((v : ℝ) / (c : ℝ)) * e) := by
  rw [gainStep, if_neg hc, hae]
  rfl

lemma gain_outlook_val : sample_set.gain "outlook" = Except.ok
    ((9 : ℝ)/7 - (6 : ℝ)/7 * Real.logb 2 3 - (15 : ℝ)/14 * Real.logb 2 5 + Real.logb 2 7) := by
  have hvc : sample_set.valueCounts 0 = Except.ok [("sunny", 5), ("overcast", 4), ("rain", 5)] := by rfl
  have hidx : sample_set.index_of_attribute "outlook" = Except.ok 0 := by rfl
  have hlen : sample_set.samples.length = 14 := rfl
  rw [SampleSet.gain, weather_entropy_val]
  simp only [ok_bind]
  rw [hidx]
  simp only [ok_bind]
  rw [hvc]
  simp only [ok_bind, hlen]
  simp only [List.foldlM_cons, List.foldlM_nil]
  rw [gainStep_eval (by norm_num) H_sunny]
  simp only [ok_bind]
  rw [gainStep_eval (by norm_num) H_overcast]
  simp only [ok_bind]
  rw [gainStep_eval (by norm_num) H_rain]
  simp only [ok_bind]
  simp only [pure_eq_ok]
  congr 1
  push_cast
  ring

lemma gain_temp_val : sample_set.gain "temp" = Except.ok
    ((3 : ℝ)/7 - (3 : ℝ)/2 * Real.logb 2 3 - (5 : ℝ)/14 * Real.logb 2 5 + Real.logb 2 7) := by
  have hvc : sample_set.valueCounts 1 = Except.ok [("hot", 4), ("mild", 6), ("cool", 4)] := by rfl
  have hidx : sample_set.index_of_attribute "temp" = Except.ok 1 := by rfl
  have hlen : sample_set.samples.length = 14 := rfl
  rw [SampleSet.gain, weather_entropy_val]
  simp only [ok_bind]
  rw [hidx]
  simp only [ok_bind]
  rw [hvc]
  simp only [ok_bind, hlen]
  simp only [List.foldlM_cons, List.foldlM_nil]
  rw [gainStep_eval (by norm_num) H_hot]
  simp only [ok_bind]
  rw [gainStep_eval (by norm_num) H_mild]
  simp only [ok_bind]
  rw [gainStep_eval (by norm_num) H_cool]
  simp only [ok_bind]
  simp only [pure_eq_ok]
  congr 1
  push_cast
  ring

lemma gain_humidity_val : sample_set.gain "humidity" = Except.ok
    ((2 : ℝ) - (9 : ℝ)/14 * Real.logb 2 3 - (5 : ℝ)/14 * Real.logb 2 5) := by
  have hvc : sample_set.valueCounts 2 = Except.ok [("high", 7), ("normal", 7)] := by rfl
  have hidx : sample_set.index_of_attribute "humidity" = Except.ok 2 := by rfl
  have hlen : sample_set.samples.length = 14 := rfl
  rw [SampleSet.gain, weather_entropy_val]
  simp only [ok_bind]
  rw [hidx]
  simp only [ok_bind]
  rw [hvc]
  simp only [ok_bind, hlen]
  simp only [List.foldlM_cons, List.foldlM_nil]
  rw [gainStep_eval (by norm_num) H_high]
  simp only [ok_bind]
  rw [gainStep_eval (by norm_num) H_normal]
  simp only [ok_bind]
  simp only [pure_eq_ok]
  congr 1
  push_cast
  ring

lemma gain_wind_val : sample_set.gain "wind" = Except.ok
    (-(4/7 : ℝ) - (6 : ℝ)/7 * Real.logb 2 3 - (5 : ℝ)/14 * Real.logb 2 5 + Real.logb 2 7) := by
  have hvc : sample_set.valueCounts 3 = Except.ok [("weak", 8), ("strong", 6)] := by rfl
  have hidx : sample_set.index_of_attribute "wind" = Except.ok 3 := by rfl
  have hlen : sample_set.samples.length = 14 := rfl
  rw [SampleSet.gain, weather_entropy_val]
  simp only [ok_bind]
  rw [hidx]
  simp only [ok_bind]
  rw [hvc]
  simp only [ok_bind, hlen]
  simp only [List.foldlM_cons, List.foldlM_nil]
  rw [gainStep_eval (by norm_num) H_weak]
  simp only [ok_bind]
  rw [gainStep_eval (by norm_num) H_strong]
  simp only [ok_bind]
  simp only [pure_eq_ok]
  congr 1
  push_cast
  ring

end AiEntropy

namespace AiEntropy

/-- C6: on the canonical 14-sample weather dataset of the module docstring,
`entropy()` is within `0.001` of `0.940`, and the gains of `outlook`,
`humidity`, `wind` and `temp` are within `0.001` of `0.246`, `0.152`,
`0.048` and `0.029` respectively. -/
theorem C6_weather_reference_values :
    (∃ x, sample_set.entropy = Except.ok x ∧ |x - 0.940| ≤ 0.001) ∧
    (∃ x, sample_set.gain "outlook" = Except.ok x ∧ |x - 0.246| ≤ 0.001) ∧
    (∃ x, sample_set.gain "humidity" = Except.ok x ∧ |x - 0.152| ≤ 0.001) ∧
    (∃ x, sample_set.gain "wind" = Except.ok x ∧ |x - 0.048| ≤ 0.001) ∧
    (∃ x, sample_set.gain "temp" = Except.ok x ∧ |x - 0.029| ≤ 0.001) := by
  have h3l := logb3_lb
  have h3u := logb3_ub
  have h5l := logb5_lb
  have h5u := logb5_ub
  have h7l := logb7_lb
  have h7u := logb7_ub
  refine ⟨⟨_, weather_entropy_val, ?_⟩, ⟨_, gain_outlook_val, ?_⟩,
    ⟨_, gain_humidity_val, ?_⟩, ⟨_, gain_wind_val, ?_⟩, ⟨_, gain_temp_val, ?_⟩⟩ <;>
    rw [abs_le] <;> constructor <;> linarith

end AiEntropy
